import Mathlib

/-!
Shallow embedding of the YOLOv3-Keras repository core
(`src/preprocess.py` and `src/yolo.py`) and proofs about it.

Modelling conventions:
* Python real arithmetic is modelled over `ℚ`; Python `int()` truncation and
  Python `round()` (banker's rounding, half to even) are modelled explicitly.
* Python strings are modelled as `List Char`; the string functions used by the
  source (`strip`, `split`, `startswith`, slicing) are defined structurally.
* Python exceptions (KeyError, IndexError, ValueError, NameError,
  AttributeError, numpy shape errors) make the enclosing operation abort with
  no result; fallible operations therefore return `Option`, with `none` for
  any raised exception.
* numpy arrays are modelled as a shape together with a total content function;
  indexing is bounds-checked exactly where numpy would raise.
-/

/-! ## Python primitives -/

/-- Python `int(q)` applied to a real value: truncation toward zero. -/
def pyInt (q : ℚ) : ℤ := if 0 ≤ q then ⌊q⌋ else ⌈q⌉

/-- Python `round(q)` with one argument: round half to even, result an integer. -/
def pyRound (q : ℚ) : ℤ :=
  let n := ⌊q⌋
  let r := q - n
  if r < 1/2 then n
  else if 1/2 < r then n + 1
  else if n % 2 = 0 then n else n + 1

/-- The whitespace characters removed by Python `str.strip()` (ASCII range). -/
def isPySpace (c : Char) : Bool :=
  c = ' ' || c = '\t' || c = '\n' || c = '\r' || c = '\x0b' || c = '\x0c'

/-- Python `str.strip()`. -/
def pyStrip (l : List Char) : List Char :=
  ((l.dropWhile isPySpace).reverse.dropWhile isPySpace).reverse

/-- Python `str.startswith(c)` for a one-character argument. -/
def pyStartsWithChar (c : Char) : List Char → Bool
  | [] => false
  | d :: _ => d = c

/-- Python `str.split(sep)` for a one-character separator: split on every
occurrence, keeping empty parts. -/
def pySplit (sep : Char) : List Char → List (List Char)
  | [] => [[]]
  | c :: rest =>
    let r := pySplit sep rest
    if c = sep then [] :: r
    else
      match r with
      | [] => [[c]]
      | g :: gs => (c :: g) :: gs

/-- Decimal digit test. -/
def isDigitCh (c : Char) : Bool := 48 ≤ c.toNat && c.toNat ≤ 57

/-- Numeric value of a decimal digit character. -/
def digitVal (c : Char) : ℕ := c.toNat - 48

/-- Tail of a Python numeric digit group: digits, with single underscores
allowed only between digits. -/
def digitsRest : List Char → Bool
  | [] => true
  | [c] => isDigitCh c
  | c :: d :: rest =>
    if c = '_' then isDigitCh d && digitsRest (d :: rest)
    else isDigitCh c && digitsRest (d :: rest)

/-- A Python numeric digit group: nonempty, starts with a digit, single
underscores only between digits. -/
def digitsCore : List Char → Bool
  | [] => false
  | c :: rest => isDigitCh c && digitsRest rest

/-- Numeric value of a digit group, ignoring underscores. -/
def digitsVal (l : List Char) : ℕ :=
  l.foldl (fun acc c => if isDigitCh c then acc * 10 + digitVal c else acc) 0

/-- Number of digits (underscores excluded) in a digit group. -/
def countDigits (l : List Char) : ℕ := (l.filter isDigitCh).length

/-- Strip an optional leading sign, returning the sign and the remainder. -/
def splitSign : List Char → ℤ × List Char
  | '+' :: rest => (1, rest)
  | '-' :: rest => (-1, rest)
  | l => (1, l)

/-- Python `int(s)` on a string: optional surrounding whitespace, optional
sign, then a digit group. `none` models the `ValueError`. -/
def pyParseInt (s : List Char) : Option ℤ :=
  let t := pyStrip s
  let p := splitSign t
  if digitsCore p.2 then some (p.1 * digitsVal p.2) else none

/-- The value of a Python `float`: a finite value (idealized as a rational),
an infinity, or a NaN. -/
inductive PyFloat where
  | finite (q : ℚ)
  | inf
  | neginf
  | nan
deriving DecidableEq

/-- ASCII lower-casing, for the case-insensitive `inf`/`nan` forms. -/
def toLowerAscii (c : Char) : Char :=
  if 65 ≤ c.toNat ∧ c.toNat ≤ 90 then Char.ofNat (c.toNat + 32) else c

/-- The mantissa of a Python float literal: `digits`, `digits.`,
`digits.digits` or `.digits`. -/
def parseMantissa (l : List Char) : Option ℚ :=
  match pySplit '.' l with
  | [ip] => if digitsCore ip then some (digitsVal ip) else none
  | [ip, fp] =>
    if digitsCore ip then
      if fp = [] then some (digitsVal ip)
      else if digitsCore fp then
        some ((digitsVal ip : ℚ) + (digitsVal fp : ℚ) / 10 ^ countDigits fp)
      else none
    else if ip = [] then
      if digitsCore fp then some ((digitsVal fp : ℚ) / 10 ^ countDigits fp)
      else none
    else none
  | _ => none

/-- Exponent marker test. -/
def isExpChar (c : Char) : Bool := c = 'e' || c = 'E'

/-- Split a list at every character satisfying `p`, keeping empty parts. -/
def pySplitP (p : Char → Bool) : List Char → List (List Char)
  | [] => [[]]
  | c :: rest =>
    let r := pySplitP p rest
    if p c then [] :: r
    else
      match r with
      | [] => [[c]]
      | g :: gs => (c :: g) :: gs

/-- Python `float(s)` on a string: optional whitespace and sign, then
`inf`/`infinity`/`nan` (case-insensitive) or a decimal literal with an
optional exponent. `none` models the `ValueError`. -/
def pyParseFloat (s : List Char) : Option PyFloat :=
  let t := pyStrip s
  let p := splitSign t
  let low := p.2.map toLowerAscii
  if low = "inf".data ∨ low = "infinity".data then
    some (if p.1 = 1 then PyFloat.inf else PyFloat.neginf)
  else if low = "nan".data then some PyFloat.nan
  else
    match pySplitP isExpChar p.2 with
    | [m] => (parseMantissa m).map (fun q => PyFloat.finite (p.1 * q))
    | [m, ex] =>
      match parseMantissa m with
      | none => none
      | some mv =>
        let ep := splitSign ex
        if digitsCore ep.2 then
          some (PyFloat.finite ((p.1 * mv) * (10:ℚ) ^ (ep.1 * (digitsVal ep.2 : ℤ))))
        else none
    | _ => none

/-! ## ConfigParser (`parse_cfg`, `src/yolo.py` lines 90-133) -/

/-- A parsed scalar config value: the `int → float → str` coercion result. -/
inductive PyValue where
  | intV (n : ℤ)
  | floatV (f : PyFloat)
  | strV (s : List Char)
deriving DecidableEq

/-- Lines 117-126 of `src/yolo.py`: try `int(value)`, on failure try
`float(value)`, on failure keep the string. -/
def coerceToken (tok : List Char) : PyValue :=
  match pyParseInt tok with
  | some n => PyValue.intV n
  | none =>
    match pyParseFloat tok with
    | some f => PyValue.floatV f
    | none => PyValue.strV tok

/-- A config value: a scalar for a single token, a list otherwise. -/
inductive CfgValue where
  | scalar (v : PyValue)
  | list (l : List PyValue)
deriving DecidableEq

/-- Lines 114-129 of `src/yolo.py`: split the right-hand side on `,`, strip
and coerce each token, and unwrap a single-token list. -/
def parseValue (v : List Char) : CfgValue :=
  let parsed := ((pySplit ',' v).map pyStrip).map coerceToken
  match parsed with
  | [x] => CfgValue.scalar x
  | l => CfgValue.list l

/-- A Python dict is insertion-ordered; re-assigning an existing key keeps
its position. -/
def dictSet (d : List (List Char × CfgValue)) (k : List Char) (v : CfgValue) :
    List (List Char × CfgValue) :=
  match d with
  | [] => [(k, v)]
  | kv :: rest => if kv.1 = k then (kv.1, v) :: rest else kv :: dictSet rest k v

/-- One section of the parsed config: name and ordered key/value dict. -/
abbrev CfgSection := List Char × List (List Char × CfgValue)

/-- The body of the `for line in f` loop of `parse_cfg`. The current section
is the last element of the accumulated list (the source mutates the dict it
appended). `none` models the exceptions: the unpacking `ValueError` when the
line does not split on `=` into exactly two parts, and the `NameError` when a
key/value line arrives before any section header (`current_section` is
unbound, its initialisation on line 99 is commented out). -/
def processLine (cfg : List CfgSection) (rawline : List Char) :
    Option (List CfgSection) :=
  let line := pyStrip rawline
  if line = [] then some cfg
  else if pyStartsWithChar '#' line then some cfg
  else if pyStartsWithChar '[' line then
    some (cfg ++ [((line.drop 1).dropLast, [])])
  else
    match (pySplit '=' line).map pyStrip with
    | [key, values] =>
      match cfg.getLast? with
      | none => none
      | some sec => some (cfg.dropLast ++ [(sec.1, dictSet sec.2 key (parseValue values))])
    | _ => none

/-- `parse_cfg` over the list of lines of the file. -/
def parse_cfg (lines : List (List Char)) : Option (List CfgSection) :=
  lines.foldlM processLine []

/-! ## GridCodec (`src/preprocess.py` lines 22-67) -/

/-- Result record of `bndbox_to_coords`. -/
structure GridCoords where
  x : ℚ
  y : ℚ
  w : ℚ
  h : ℚ
  cell_x : ℤ
  cell_y : ℤ
deriving DecidableEq

/-- `bndbox_to_coords(bndbox, img_width, img_height, s)` from
`src/preprocess.py` lines 22-48: box center and size in grid units, cell
indices by `int` truncation, center offsets relative to the cell. -/
def bndbox_to_coords (bndbox : ℚ × ℚ × ℚ × ℚ) (img_width img_height s : ℚ) :
    GridCoords :=
  let xmin := bndbox.1
  let xmax := bndbox.2.1
  let ymin := bndbox.2.2.1
  let ymax := bndbox.2.2.2
  -- absolute position in grid units
  let x := (xmin + xmax) / 2 / img_width * s
  let y := (ymin + ymax) / 2 / img_height * s
  -- size in grid units
  let w := (xmax - xmin) / img_width * s
  let h := (ymax - ymin) / img_height * s
  -- position relative to cell
  let cell_x := pyInt x
  let cell_y := pyInt y
  ⟨x - cell_x, y - cell_y, w, h, cell_x, cell_y⟩

/-- `coords_to_bndbox(x, y, w, h, cell_x, cell_y, img_width, img_height, s)`
from `src/preprocess.py` lines 50-67: inverse scaling followed by Python
`round` on each corner. -/
def coords_to_bndbox (x y w h : ℚ) (cell_x cell_y : ℤ)
    (img_width img_height s : ℚ) : ℤ × ℤ × ℤ × ℤ :=
  let cx := (x + cell_x) * img_width / s
  let cy := (y + cell_y) * img_height / s
  let ww := w * img_width / s
  let hh := h * img_height / s
  (pyRound (cx - ww/2), pyRound (cx + ww/2), pyRound (cy - hh/2), pyRound (cy + hh/2))

/-! ## LabelCodec (`src/preprocess.py` lines 5-11 and 69-135) -/

/-- `CLASS_NAME_TO_INDEX` from `src/preprocess.py` lines 5-10, as the ordered
list of its entries. -/
def CLASS_NAME_TO_INDEX : List (List Char × ℕ) :=
  [("aeroplane".data, 0), ("bicycle".data, 1), ("bird".data, 2),
   ("boat".data, 3), ("bottle".data, 4), ("bus".data, 5), ("car".data, 6),
   ("cat".data, 7), ("chair".data, 8), ("cow".data, 9),
   ("diningtable".data, 10), ("dog".data, 11), ("horse".data, 12),
   ("motorbike".data, 13), ("person".data, 14), ("pottedplant".data, 15),
   ("sheep".data, 16), ("sofa".data, 17), ("train".data, 18),
   ("tvmonitor".data, 19)]

/-- Dictionary lookup `CLASS_NAME_TO_INDEX[name]`; `none` models the
`KeyError`. -/
def classIndex (name : List Char) : Option ℕ :=
  (CLASS_NAME_TO_INDEX.find? (fun p => p.1 == name)).map (fun p => p.2)

/-- `INDEX_TO_CLASS_NAME = list(CLASS_NAME_TO_INDEX.keys())`. -/
def INDEX_TO_CLASS_NAME : List (List Char) :=
  CLASS_NAME_TO_INDEX.map (fun p => p.1)

/-- The `image-size` record of an annotation. -/
structure ImgSize where
  depth : ℤ
  width : ℤ
  height : ℤ
deriving DecidableEq

/-- One object of an annotation: class name and `(xmin, xmax, ymin, ymax)`
pixel box. -/
structure LabelObj where
  name : List Char
  bndbox : ℚ × ℚ × ℚ × ℚ
deriving DecidableEq

/-- An annotation record (`difficult` is not modelled; the decoder omits it). -/
structure PyLabel where
  imageSize : ImgSize
  objects : List LabelObj
deriving DecidableEq

/-- A 3-axis numpy array: shape plus total content function. -/
structure Tensor3 where
  dim0 : ℕ
  dim1 : ℕ
  dim2 : ℕ
  data : ℕ → ℕ → ℕ → ℚ

/-- `np.zeros((d0, d1, d2))`. -/
def zeros3 (d0 d1 d2 : ℕ) : Tensor3 := ⟨d0, d1, d2, fun _ _ _ => 0⟩

/-- numpy integer indexing on one axis of length `n`: nonnegative indices
must be `< n`, negative indices wrap once; anything else raises
(`none`). -/
def npIdx (i : ℤ) (n : ℕ) : Option ℕ :=
  if 0 ≤ i then (if i < (n : ℤ) then some i.toNat else none)
  else (if -(n : ℤ) ≤ i then some (i + n).toNat else none)

/-- The three assignments of `preprocess_label` lines 98-100 for cell
`(cy, cx)`: confidence 1, channels 1..4 get `(x, y, w, h)`, channel
`10 + ci` gets the one-hot class bit. -/
def writeCell (t : Tensor3) (cy cx : ℕ) (g : GridCoords) (ci : ℕ) : Tensor3 :=
  { t with data := (fun a b ch =>
      if a = cy ∧ b = cx then
        if ch = 0 then 1
        else if ch = 1 then g.x
        else if ch = 2 then g.y
        else if ch = 3 then g.w
        else if ch = 4 then g.h
        else if ch = 10 + ci then 1
        else t.data a b ch
      else t.data a b ch) }

/-- The loop body of `preprocess_label` (`src/preprocess.py` lines 91-100)
for a single object: look up the class, compute grid coordinates, and if the
target cell's confidence is 0 write confidence, box and one-hot class.
`none` models the `KeyError` on an unknown class, the `IndexError` on an
out-of-range cell, and the numpy errors when the channel axis is too short
for the `1:5` slice assignment or the `10 + class_index` write. -/
def encodeObj (W H s : ℚ) (t : Tensor3) (obj : LabelObj) : Option Tensor3 :=
  (classIndex obj.name).bind (fun ci =>
    let g := bndbox_to_coords obj.bndbox W H s
    (npIdx g.cell_y t.dim0).bind (fun cy =>
      (npIdx g.cell_x t.dim1).bind (fun cx =>
        if 0 < t.dim2 then
          if t.data cy cx 0 = 0 then
            if 5 ≤ t.dim2 ∧ 10 + ci < t.dim2 then some (writeCell t cy cx g ci)
            else none
          else some t
        else none)))

/-- `preprocess_label(label, s, b, c)` from `src/preprocess.py` lines 69-102:
zero tensor of shape `(s, s, b*5+c)`, then the object loop. -/
def preprocess_label (label : PyLabel) (s b c : ℕ) : Option Tensor3 :=
  let W : ℚ := label.imageSize.width
  let H : ℚ := label.imageSize.height
  label.objects.foldlM (fun t obj => encodeObj W H (s : ℚ) t obj)
    (zeros3 s s (b * 5 + c))

/-- Scanning state of `np.argmax`: best index, best value, next index. -/
def argmaxAux (l : List ℚ) (bi : ℕ) (bv : ℚ) (i : ℕ) : ℕ :=
  match l with
  | [] => bi
  | v :: rest => if bv < v then argmaxAux rest i v (i + 1) else argmaxAux rest bi bv (i + 1)

/-- `np.argmax`: index of the first maximum; raises (`none`) on an empty
array. -/
def npArgmax : List ℚ → Option ℕ
  | [] => none
  | v :: rest => some (argmaxAux rest 0 v 1)

/-- The cell body of `tensor_to_label` (`src/preprocess.py` lines 117-128).
Outer `none` models an exception (bad axis bounds, a channel axis too short
for the `1:5` unpacking or the empty `10:` slice, or a class index past the
end of `INDEX_TO_CLASS_NAME`); `some none` is a cell whose confidence is not
exactly 1; `some (some obj)` is a decoded object. -/
def decodeCell (t : Tensor3) (W H : ℚ) (cy cx : ℕ) : Option (Option LabelObj) :=
  if cy < t.dim0 ∧ cx < t.dim1 ∧ 0 < t.dim2 then
    if t.data cy cx 0 = 1 then
      if 5 ≤ t.dim2 then
        let x := t.data cy cx 1
        let y := t.data cy cx 2
        let w := t.data cy cx 3
        let h := t.data cy cx 4
        let bb := coords_to_bndbox x y w h (cx : ℤ) (cy : ℤ) W H (t.dim0 : ℚ)
        match npArgmax ((List.range (t.dim2 - 10)).map (fun k => t.data cy cx (10 + k))) with
        | none => none
        | some ci =>
          match INDEX_TO_CLASS_NAME.get? ci with
          | none => none
          | some nm =>
            some (some ⟨nm, ((bb.1 : ℚ), (bb.2.1 : ℚ), (bb.2.2.1 : ℚ), (bb.2.2.2 : ℚ))⟩)
      else none
    else some none
  else none

/-- The cells visited by the nested `for cell_y ... for cell_x ...` loops,
in row-major order. -/
def gridCells (s : ℕ) : List (ℕ × ℕ) :=
  (List.range s).flatMap (fun cy => (List.range s).map (fun cx => (cy, cx)))

/-- `tensor_to_label(label_tensor, img_width, img_height, img_depth)` from
`src/preprocess.py` lines 104-135: collect one object per cell whose
confidence is exactly 1, then assemble the label record. -/
def tensor_to_label (t : Tensor3) (img_width img_height img_depth : ℤ) :
    Option PyLabel :=
  match (gridCells t.dim0).foldlM
      (fun acc cell =>
        (decodeCell t (img_width : ℚ) (img_height : ℚ) cell.1 cell.2).map
          (fun r =>
            match r with
            | some obj => acc ++ [obj]
            | none => acc))
      ([] : List LabelObj) with
  | none => none
  | some objs => some ⟨⟨img_depth, img_width, img_height⟩, objs⟩

/-! ## WeightLoader (`load_pretrained_darknet`, `src/yolo.py` lines 220-292) -/

/-- A byte-level cursor over the weights file. -/
structure ByteStream where
  data : ℕ → ℕ
  pos : ℕ

/-- Byte `k` past the cursor (reduced mod 256: a file holds bytes). -/
def byteAt (st : ByteStream) (k : ℕ) : ℕ := st.data (st.pos + k) % 256

/-- One little-endian two's-complement `np.int32` read, advancing 4 bytes. -/
def readInt32 (st : ByteStream) : ℤ × ByteStream :=
  let u := byteAt st 0 + 256 * byteAt st 1 + 65536 * byteAt st 2 +
    16777216 * byteAt st 3
  (if u < 2147483648 then (u : ℤ) else (u : ℤ) - 4294967296,
   ⟨st.data, st.pos + 4⟩)

/-- One little-endian two's-complement `np.int64` read, advancing 8 bytes. -/
def readInt64 (st : ByteStream) : ℤ × ByteStream :=
  let u := byteAt st 0 + 256 * (byteAt st 1 + 256 * (byteAt st 2 + 256 *
    (byteAt st 3 + 256 * (byteAt st 4 + 256 * (byteAt st 5 + 256 *
    (byteAt st 6 + 256 * byteAt st 7))))))
  (if u < 9223372036854775808 then (u : ℤ) else (u : ℤ) - 18446744073709551616,
   ⟨st.data, st.pos + 8⟩)

/-- The parsed weight-file header. -/
structure DarknetHeader where
  major : ℤ
  minor : ℤ
  revision : ℤ
  seen : ℤ
  seenWidth : ℕ
deriving DecidableEq

/-- Lines 232-237 of `src/yolo.py`: read `major`, `minor`, `revision` as
`int32`; the following `seen` counter is `int64` when
`major * 1 + minor >= 2 and major < 1000 and minor < 1000`, else `int32`.
The counter is read and discarded. -/
def load_header (st : ByteStream) : DarknetHeader × ByteStream :=
  let r1 := readInt32 st
  let r2 := readInt32 r1.2
  let r3 := readInt32 r2.2
  let major := r1.1
  let minor := r2.1
  let revision := r3.1
  if major * 1 + minor ≥ 2 ∧ major < 1000 ∧ minor < 1000 then
    let r4 := readInt64 r3.2
    (⟨major, minor, revision, r4.1, 8⟩, r4.2)
  else
    let r4 := readInt32 r3.2
    (⟨major, minor, revision, r4.1, 4⟩, r4.2)

/-- A float32-granularity cursor over the body of the weights file (float
values idealized as rationals). -/
structure FloatStream where
  data : ℕ → ℚ
  pos : ℕ

/-- `np.fromfile(wf, dtype=np.float32, count=n)`: the next `n` floats,
cursor advanced by `n`. -/
def readFloats (st : FloatStream) (n : ℕ) : List ℚ × FloatStream :=
  ((List.range n).map (fun i => st.data (st.pos + i)), ⟨st.data, st.pos + n⟩)

/-- A 4-axis numpy array: shape plus total content function. -/
structure Arr4 where
  n0 : ℕ
  n1 : ℕ
  n2 : ℕ
  n3 : ℕ
  data : ℕ → ℕ → ℕ → ℕ → ℚ

/-- numpy C-order `reshape` of a flat vector into a 4-axis array:
element `(a, b, c, d)` is flat element `((a*n1 + b)*n2 + c)*n3 + d`. -/
def npReshape4 (l : List ℚ) (n0 n1 n2 n3 : ℕ) : Arr4 :=
  ⟨n0, n1, n2, n3, fun a b c d => l.getD (((a * n1 + b) * n2 + c) * n3 + d) 0⟩

/-- `np.transpose(a, [2, 3, 1, 0])`: axis `m` of the result is axis
`[2,3,1,0][m]` of the input, so `result[i,j,k,l] = a[l,k,i,j]`. -/
def npTranspose2310 (a : Arr4) : Arr4 :=
  ⟨a.n2, a.n3, a.n1, a.n0, fun i j k l => a.data l k i j⟩

/-- Lines 272-277 of `src/yolo.py`: read
`filters * input_channels * kernel_size[0] * kernel_size[1]` floats, reshape
to the darknet layout `(filters, input_channels, k0, k1)`, and transpose to
the Keras layout `(k0, k1, input_channels, filters)`. -/
def loadConvKernel (st : FloatStream) (filters input_channels k0 k1 : ℕ) :
    Arr4 × FloatStream :=
  let cnt := filters * input_channels * k0 * k1
  let r := readFloats st cnt
  let darnet := npReshape4 r.1 filters input_channels k0 k1
  (npTranspose2310 darnet, r.2)

/-- Lines 256-265 of `src/yolo.py`: read the four darknet batch-norm vectors
in on-disk order `[beta, gamma, running_mean, running_variance]` and build
the list passed to `set_weights`, in Keras order
`[gamma, beta, running_mean, running_variance]`. -/
def loadBatchNorm (st : FloatStream) (filters : ℕ) :
    List (List ℚ) × FloatStream :=
  let rBeta := readFloats st filters
  let rGamma := readFloats rBeta.2 filters
  let rMean := readFloats rGamma.2 filters
  let rVar := readFloats rMean.2 filters
  ([rGamma.1, rBeta.1, rMean.1, rVar.1], rVar.2)

/-- What `set_weights` receives for one convolutional block. -/
structure ConvLoadResult where
  bnWeights : Option (List (List ℚ))
  kernel : Arr4

/-- Lines 250-283 of `src/yolo.py`, loading one `convolutional` block.
`use_bias` is `not batch_normalize` (set by `create_model_from_cfg`,
line 164). In the `use_bias` branch line 270 executes
`conv2d_bias = np.formfile(wf, dtype=np.float32, count=bias_shape[0])`,
which raises `AttributeError`: numpy has no attribute `formfile` (and
`bias_shape` is an undefined name as well — line 269 defines
`conv2d_bias_shape`). The whole load aborts, modelled as `none`. -/
def loadConvBlock (st : FloatStream) (filters input_channels k0 k1 : ℕ)
    (batch_normalize : Bool) : Option (ConvLoadResult × FloatStream) :=
  if batch_normalize then
    let rBn := loadBatchNorm st filters
    let rK := loadConvKernel rBn.2 filters input_channels k0 k1
    some (⟨some rBn.1, rK.1⟩, rK.2)
  else
    none

/-! ## Specification-side helper definitions (used to state properties) -/

/-- The grid cell an object is written to: the result of numpy indexing with
`(cell_y, cell_x)` on axes of length `d0`, `d1`. -/
def objCell (W H s : ℚ) (d0 d1 : ℕ) (obj : LabelObj) : Option (ℕ × ℕ) :=
  let g := bndbox_to_coords obj.bndbox W H s
  (npIdx g.cell_y d0).bind (fun cy =>
    (npIdx g.cell_x d1).map (fun cx => (cy, cx)))

/-- The channel vector `preprocess_label` writes for one object with class
index `ci`. -/
def cellVec (W H s : ℚ) (obj : LabelObj) (ci : ℕ) : ℕ → ℚ :=
  fun ch =>
    let g := bndbox_to_coords obj.bndbox W H s
    if ch = 0 then 1
    else if ch = 1 then g.x
    else if ch = 2 then g.y
    else if ch = 3 then g.w
    else if ch = 4 then g.h
    else if ch = 10 + ci then 1
    else 0

/-- The first object of `objs` (in input order) mapping to cell `(cy, cx)`. -/
def firstObjAt (W H s : ℚ) (d0 d1 : ℕ) (objs : List LabelObj) (cy cx : ℕ) :
    Option LabelObj :=
  objs.find? (fun o => objCell W H s d0 d1 o == some (cy, cx))

/-- The intended contents of cell `(cy, cx)`, channel `ch`, after encoding
`objs`: the written vector of the first object claiming the cell, else 0. -/
def cellSpec (W H s : ℚ) (d0 d1 : ℕ) (objs : List LabelObj) (cy cx ch : ℕ) : ℚ :=
  match firstObjAt W H s d0 d1 objs cy cx with
  | some o =>
    match classIndex o.name with
    | some ci => cellVec W H s o ci ch
    | none => 0
  | none => 0

/-- Pixel box after one encode/decode round trip. -/
def roundtripBox (bb : ℚ × ℚ × ℚ × ℚ) (W H s : ℚ) : ℤ × ℤ × ℤ × ℤ :=
  let g := bndbox_to_coords bb W H s
  coords_to_bndbox g.x g.y g.w g.h g.cell_x g.cell_y W H s

/-- An object as reproduced by decode: same name, round-tripped box. -/
def approxObj (W H s : ℚ) (o : LabelObj) : LabelObj :=
  let bb := roundtripBox o.bndbox W H s
  ⟨o.name, ((bb.1 : ℚ), (bb.2.1 : ℚ), (bb.2.2.1 : ℚ), (bb.2.2.2 : ℚ))⟩

/-! ## Lemmas about the grid codec -/

theorem pyRound_sub_le (q : ℚ) : |(pyRound q : ℚ) - q| ≤ 1/2 := by
  unfold pyRound
  have hfl : (⌊q⌋ : ℚ) ≤ q := Int.floor_le q
  have hfu : q < ⌊q⌋ + 1 := Int.lt_floor_add_one q
  by_cases h1 : q - ⌊q⌋ < 1/2
  · simp only [h1, if_true]
    rw [abs_le]
    constructor <;> linarith
  · simp only [h1, if_false]
    by_cases h2 : (1:ℚ)/2 < q - ⌊q⌋
    · simp only [h2, if_true]
      rw [abs_le]
      push_cast
      constructor <;> linarith
    · simp only [h2, if_false]
      have heq : q - ⌊q⌋ = 1/2 := le_antisymm (not_lt.mp h2) (not_lt.mp h1)
      by_cases h3 : ⌊q⌋ % 2 = 0
      · simp only [h3, if_true]
        rw [abs_le]; constructor <;> linarith
      · simp only [h3, if_false]
        rw [abs_le]
        push_cast
        constructor <;> linarith

theorem pyInt_of_nonneg {q : ℚ} (h : 0 ≤ q) : pyInt q = ⌊q⌋ := by
  simp [pyInt, h]

/-- Round-trip in pixel space: `coords_to_bndbox ∘ bndbox_to_coords` is
Python `round` applied to each original coordinate, provided the image
dimensions and `s` are nonzero. -/
theorem roundtrip_box_eq (xmin xmax ymin ymax W H s : ℚ)
    (hW : W ≠ 0) (hH : H ≠ 0) (hs : s ≠ 0) :
    roundtripBox (xmin, xmax, ymin, ymax) W H s =
      (pyRound xmin, pyRound xmax, pyRound ymin, pyRound ymax) := by
  unfold roundtripBox bndbox_to_coords coords_to_bndbox
  simp only
  have hx : ((xmin + xmax) / 2 / W * s - (pyInt ((xmin + xmax) / 2 / W * s) : ℚ)
      + (pyInt ((xmin + xmax) / 2 / W * s) : ℚ)) * W / s = (xmin + xmax) / 2 := by
    field_simp; ring
  have hy : ((ymin + ymax) / 2 / H * s - (pyInt ((ymin + ymax) / 2 / H * s) : ℚ)
      + (pyInt ((ymin + ymax) / 2 / H * s) : ℚ)) * H / s = (ymin + ymax) / 2 := by
    field_simp; ring
  have hw : (xmax - xmin) / W * s * W / s = xmax - xmin := by field_simp
  have hh2 : (ymax - ymin) / H * s * H / s = ymax - ymin := by field_simp
  rw [hx, hy, hw, hh2]
  have e1 : (xmin + xmax) / 2 - (xmax - xmin) / 2 = xmin := by ring
  have e2 : (xmin + xmax) / 2 + (xmax - xmin) / 2 = xmax := by ring
  have e3 : (ymin + ymax) / 2 - (ymax - ymin) / 2 = ymin := by ring
  have e4 : (ymin + ymax) / 2 + (ymax - ymin) / 2 = ymax := by ring
  rw [e1, e2, e3, e4]

/-- One axis of the grid transform: bounds on the grid-unit center, its
truncation and the cell-relative offset, for a box edge pair strictly left
of the image border. -/
theorem grid_axis_bounds (a b L : ℚ) (s : ℕ) (h0 : 0 ≤ a) (hab : a ≤ b)
    (hL : 0 < L) (hc : (a + b) / 2 < L) (hs : 0 < s) :
    0 ≤ (a + b) / 2 / L * s ∧ (a + b) / 2 / L * s < s ∧
      pyInt ((a + b) / 2 / L * s) = ⌊(a + b) / 2 / L * s⌋ ∧
      0 ≤ ⌊(a + b) / 2 / L * s⌋ ∧ ⌊(a + b) / 2 / L * s⌋ < (s : ℤ) ∧
      0 ≤ (a + b) / 2 / L * s - ⌊(a + b) / 2 / L * s⌋ ∧
      (a + b) / 2 / L * s - ⌊(a + b) / 2 / L * s⌋ < 1 := by
  set u : ℚ := (a + b) / 2 / L * s with hu
  have hsQ : (0 : ℚ) < s := by exact_mod_cast hs
  have hcenter : 0 ≤ (a + b) / 2 := by linarith
  have h1 : 0 ≤ u := by
    rw [hu]
    apply mul_nonneg _ (le_of_lt hsQ)
    exact div_nonneg hcenter (le_of_lt hL)
  have h2 : u < s := by
    rw [hu]
    have hq : (a + b) / 2 / L < 1 := (div_lt_one hL).mpr hc
    calc (a + b) / 2 / L * s < 1 * s := by
          exact (mul_lt_mul_right hsQ).mpr hq
      _ = s := one_mul _
  refine ⟨h1, h2, pyInt_of_nonneg h1, Int.floor_nonneg.mpr h1, ?_, ?_, ?_⟩
  · rw [Int.floor_lt]
    exact_mod_cast h2
  · linarith [Int.floor_le u]
  · linarith [Int.lt_floor_add_one u]

/-- C1. For boxes inside a positive-dimension image and any positive grid
size, `coords_to_bndbox` applied to the output of `bndbox_to_coords`
reproduces every coordinate to within ±1 pixel; the concrete 400×400, s=7
instance of the spec maps box (100, 200, 50, 150) to
(x=0.625, y=0.75, w=1.75, h=1.75, cell_x=2, cell_y=1) and back exactly. -/
theorem claim_C1 :
    (∀ xmin xmax ymin ymax W H s : ℚ, 0 ≤ xmin → xmin ≤ xmax → xmax ≤ W →
      0 ≤ ymin → ymin ≤ ymax → ymax ≤ H → 0 < W → 0 < H → 0 < s →
      |((roundtripBox (xmin, xmax, ymin, ymax) W H s).1 : ℚ) - xmin| ≤ 1 ∧
      |((roundtripBox (xmin, xmax, ymin, ymax) W H s).2.1 : ℚ) - xmax| ≤ 1 ∧
      |((roundtripBox (xmin, xmax, ymin, ymax) W H s).2.2.1 : ℚ) - ymin| ≤ 1 ∧
      |((roundtripBox (xmin, xmax, ymin, ymax) W H s).2.2.2 : ℚ) - ymax| ≤ 1) ∧
    bndbox_to_coords (100, 200, 50, 150) 400 400 7 =
      ⟨5/8, 3/4, 7/4, 7/4, 2, 1⟩ ∧
    coords_to_bndbox (5/8) (3/4) (7/4) (7/4) 2 1 400 400 7 = (100, 200, 50, 150) := by
  refine ⟨?_, ?_, ?_⟩
  · intro xmin xmax ymin ymax W H s _ _ _ _ _ _ hW hH hs
    rw [roundtrip_box_eq xmin xmax ymin ymax W H s (ne_of_gt hW) (ne_of_gt hH)
      (ne_of_gt hs)]
    have half_le_one : (1:ℚ)/2 ≤ 1 := by norm_num
    exact ⟨le_trans (pyRound_sub_le xmin) half_le_one,
      le_trans (pyRound_sub_le xmax) half_le_one,
      le_trans (pyRound_sub_le ymin) half_le_one,
      le_trans (pyRound_sub_le ymax) half_le_one⟩
  · norm_num [bndbox_to_coords, pyInt]
  · norm_num [coords_to_bndbox, pyRound]

/-- Witness for C1 at the concrete spec instance. -/
theorem claim_C1_witness :
    |((roundtripBox (100, 200, 50, 150) 400 400 7).1 : ℚ) - 100| ≤ 1 ∧
    |((roundtripBox (100, 200, 50, 150) 400 400 7).2.1 : ℚ) - 200| ≤ 1 ∧
    |((roundtripBox (100, 200, 50, 150) 400 400 7).2.2.1 : ℚ) - 50| ≤ 1 ∧
    |((roundtripBox (100, 200, 50, 150) 400 400 7).2.2.2 : ℚ) - 150| ≤ 1 :=
  claim_C1.1 100 200 50 150 400 400 7 (by norm_num) (by norm_num) (by norm_num)
    (by norm_num) (by norm_num) (by norm_num) (by norm_num) (by norm_num)
    (by norm_num)

/-- C10 counterexample. The degenerate box `(400, 400, 0, 0)` lies within a
400×400 image (`0 ≤ xmin ≤ xmax ≤ 400`, `0 ≤ ymin ≤ ymax ≤ 400`), yet with
`s = 7` its cell index `cell_x` equals 7, which is not `< 7`: the claimed
bound `cell_x ∈ [0, s)` fails on boundary-centered boxes. -/
theorem claim_C10_counterexample :
    ((0:ℚ) ≤ 400 ∧ (400:ℚ) ≤ 400 ∧ (400:ℚ) ≤ 400 ∧
     (0:ℚ) ≤ 0 ∧ (0:ℚ) ≤ 0 ∧ (0:ℚ) ≤ 400 ∧ (0:ℚ) < 400 ∧ 0 < (7:ℕ)) ∧
    (bndbox_to_coords (400, 400, 0, 0) 400 400 (7:ℕ)).cell_x = 7 ∧
    ¬ ((bndbox_to_coords (400, 400, 0, 0) 400 400 (7:ℕ)).cell_x < (7:ℕ)) := by
  refine ⟨by norm_num, ?_, ?_⟩
  · norm_num [bndbox_to_coords, pyInt]
  · norm_num [bndbox_to_coords, pyInt]

/-- C10 (amended). For a box inside a positive image whose center is
strictly inside the image, `bndbox_to_coords` returns offsets `x, y ∈ [0,1)`
and integer cell indices in `[0, s)`, with `cell_x` the floor of the
grid-unit center and `x` that center minus `cell_x` (and likewise for `y`).
The amendment adds the strict-interior condition on the box center, without
which the cell index can equal `s` (see the counterexample). -/
theorem claim_C10 (xmin xmax ymin ymax W H : ℚ) (s : ℕ)
    (hx0 : 0 ≤ xmin) (hx1 : xmin ≤ xmax) (hx2 : xmax ≤ W)
    (hy0 : 0 ≤ ymin) (hy1 : ymin ≤ ymax) (hy2 : ymax ≤ H)
    (hW : 0 < W) (hH : 0 < H) (hs : 0 < s)
    (hcx : (xmin + xmax) / 2 < W) (hcy : (ymin + ymax) / 2 < H) :
    0 ≤ (bndbox_to_coords (xmin, xmax, ymin, ymax) W H s).x ∧
    (bndbox_to_coords (xmin, xmax, ymin, ymax) W H s).x < 1 ∧
    0 ≤ (bndbox_to_coords (xmin, xmax, ymin, ymax) W H s).y ∧
    (bndbox_to_coords (xmin, xmax, ymin, ymax) W H s).y < 1 ∧
    0 ≤ (bndbox_to_coords (xmin, xmax, ymin, ymax) W H s).cell_x ∧
    (bndbox_to_coords (xmin, xmax, ymin, ymax) W H s).cell_x < (s : ℤ) ∧
    0 ≤ (bndbox_to_coords (xmin, xmax, ymin, ymax) W H s).cell_y ∧
    (bndbox_to_coords (xmin, xmax, ymin, ymax) W H s).cell_y < (s : ℤ) ∧
    (bndbox_to_coords (xmin, xmax, ymin, ymax) W H s).cell_x =
      ⌊(xmin + xmax) / 2 / W * s⌋ ∧
    (bndbox_to_coords (xmin, xmax, ymin, ymax) W H s).x =
      (xmin + xmax) / 2 / W * s - ⌊(xmin + xmax) / 2 / W * s⌋ ∧
    (bndbox_to_coords (xmin, xmax, ymin, ymax) W H s).cell_y =
      ⌊(ymin + ymax) / 2 / H * s⌋ ∧
    (bndbox_to_coords (xmin, xmax, ymin, ymax) W H s).y =
      (ymin + ymax) / 2 / H * s - ⌊(ymin + ymax) / 2 / H * s⌋ := by
  obtain ⟨_, _, hpx, hfx0, hfx1, hrx0, hrx1⟩ :=
    grid_axis_bounds xmin xmax W s hx0 hx1 hW hcx hs
  obtain ⟨_, _, hpy, hfy0, hfy1, hry0, hry1⟩ :=
    grid_axis_bounds ymin ymax H s hy0 hy1 hH hcy hs
  unfold bndbox_to_coords
  simp only
  rw [hpx, hpy]
  exact ⟨hrx0, hrx1, hry0, hry1, hfx0, hfx1, hfy0, hfy1, rfl, rfl, rfl, rfl⟩

/-- Witness for C10 at the concrete spec instance. -/
theorem claim_C10_witness :
    0 ≤ (bndbox_to_coords (100, 200, 50, 150) 400 400 (7:ℕ)).x ∧
    (bndbox_to_coords (100, 200, 50, 150) 400 400 (7:ℕ)).x < 1 ∧
    0 ≤ (bndbox_to_coords (100, 200, 50, 150) 400 400 (7:ℕ)).y ∧
    (bndbox_to_coords (100, 200, 50, 150) 400 400 (7:ℕ)).y < 1 ∧
    0 ≤ (bndbox_to_coords (100, 200, 50, 150) 400 400 (7:ℕ)).cell_x ∧
    (bndbox_to_coords (100, 200, 50, 150) 400 400 (7:ℕ)).cell_x < ((7:ℕ) : ℤ) ∧
    0 ≤ (bndbox_to_coords (100, 200, 50, 150) 400 400 (7:ℕ)).cell_y ∧
    (bndbox_to_coords (100, 200, 50, 150) 400 400 (7:ℕ)).cell_y < ((7:ℕ) : ℤ) ∧
    (bndbox_to_coords (100, 200, 50, 150) 400 400 (7:ℕ)).cell_x =
      ⌊((100:ℚ) + 200) / 2 / 400 * (7:ℕ)⌋ ∧
    (bndbox_to_coords (100, 200, 50, 150) 400 400 (7:ℕ)).x =
      ((100:ℚ) + 200) / 2 / 400 * (7:ℕ) - ⌊((100:ℚ) + 200) / 2 / 400 * (7:ℕ)⌋ ∧
    (bndbox_to_coords (100, 200, 50, 150) 400 400 (7:ℕ)).cell_y =
      ⌊((50:ℚ) + 150) / 2 / 400 * (7:ℕ)⌋ ∧
    (bndbox_to_coords (100, 200, 50, 150) 400 400 (7:ℕ)).y =
      ((50:ℚ) + 150) / 2 / 400 * (7:ℕ) - ⌊((50:ℚ) + 150) / 2 / 400 * (7:ℕ)⌋ :=
  claim_C10 100 200 50 150 400 400 7 (by norm_num) (by norm_num) (by norm_num)
    (by norm_num) (by norm_num) (by norm_num) (by norm_num) (by norm_num)
    (by norm_num) (by norm_num) (by norm_num)

/-! ## Lemmas about the weight loader -/

theorem range_map_getD (f : ℕ → ℚ) (n i : ℕ) (h : i < n) :
    (((List.range n).map f).getD i 0) = f i := by
  rw [List.getD_eq_getElem?_getD, List.getElem?_map, List.getElem?_range h]
  rfl

theorem idx4_lt {i j k l kh kw ic f : ℕ} (hi : i < kh) (hj : j < kw)
    (hk : k < ic) (hl : l < f) :
    ((l * ic + k) * kh + i) * kw + j < f * ic * kh * kw := by
  have h1 : l * ic + k + 1 ≤ f * ic := by
    calc l * ic + k + 1 ≤ l * ic + ic := by omega
      _ = (l + 1) * ic := by ring
      _ ≤ f * ic := Nat.mul_le_mul_right ic hl
  have h2 : (l * ic + k) * kh + i + 1 ≤ f * ic * kh := by
    calc (l * ic + k) * kh + i + 1 ≤ (l * ic + k) * kh + kh := by omega
      _ = (l * ic + k + 1) * kh := by ring
      _ ≤ f * ic * kh := Nat.mul_le_mul_right kh h1
  calc ((l * ic + k) * kh + i) * kw + j < ((l * ic + k) * kh + i) * kw + kw := by
        omega
    _ = ((l * ic + k) * kh + i + 1) * kw := by ring
    _ ≤ f * ic * kh * kw := Nat.mul_le_mul_right kw h2

/-- C3. The convolutional kernel loader reads
`filters * input_channels * k0 * k1` floats (the cursor advances by exactly
that count), produces an array of shape `(k0, k1, input_channels, filters)`,
and for all valid indices the written kernel satisfies
`dest[i][j][k][l] = disk[l][k][i][j]`, where `disk` is the read data in the
on-disk C-order layout `(filters, input_channels, k0, k1)` — equivalently,
flat element `((l*input_channels + k)*k0 + i)*k1 + j` of the stream. -/
theorem claim_C3 (st : FloatStream) (filters input_channels k0 k1 : ℕ) :
    ((loadConvKernel st filters input_channels k0 k1).2.pos =
      st.pos + filters * input_channels * k0 * k1) ∧
    ((loadConvKernel st filters input_channels k0 k1).1.n0 = k0 ∧
     (loadConvKernel st filters input_channels k0 k1).1.n1 = k1 ∧
     (loadConvKernel st filters input_channels k0 k1).1.n2 = input_channels ∧
     (loadConvKernel st filters input_channels k0 k1).1.n3 = filters) ∧
    (∀ i j k l, i < k0 → j < k1 → k < input_channels → l < filters →
      (loadConvKernel st filters input_channels k0 k1).1.data i j k l =
        (npReshape4 (readFloats st (filters * input_channels * k0 * k1)).1
          filters input_channels k0 k1).data l k i j ∧
      (loadConvKernel st filters input_channels k0 k1).1.data i j k l =
        st.data (st.pos + (((l * input_channels + k) * k0 + i) * k1 + j))) := by
  refine ⟨rfl, ⟨rfl, rfl, rfl, rfl⟩, ?_⟩
  intro i j k l hi hj hk hl
  constructor
  · rfl
  · show (((List.range (filters * input_channels * k0 * k1)).map
        (fun m => st.data (st.pos + m))).getD
        (((l * input_channels + k) * k0 + i) * k1 + j) 0) = _
    rw [range_map_getD _ _ _ (idx4_lt hi hj hk hl)]

/-- Witness for C3: a concrete stream and index set. -/
theorem claim_C3_witness :
    (loadConvKernel ⟨fun m => (m : ℚ), 0⟩ 2 3 1 1).1.data 0 0 1 1 =
      (⟨fun m => (m : ℚ), 0⟩ : FloatStream).data
        (0 + (((1 * 3 + 1) * 1 + 0) * 1 + 0)) :=
  ((claim_C3 ⟨fun m => (m : ℚ), 0⟩ 2 3 1 1).2.2 0 0 1 1 (by norm_num)
    (by norm_num) (by norm_num) (by norm_num)).2

/-- C4. The batch-norm loader reads four vectors of length `filters` laid
out on disk in order `[beta, gamma, mean, variance]` (at cursor offsets
`0, filters, 2*filters, 3*filters`) and hands `set_weights` the list
`[gamma, beta, mean, variance]`; the cursor advances by `4*filters`.
Concretely, with on-disk values `[beta=1, gamma=2, mean=3, var=4]` and
`filters = 1`, the written list is `[[2], [1], [3], [4]]`. -/
theorem claim_C4 (st : FloatStream) (filters : ℕ) :
    ((loadBatchNorm st filters).1 =
      [(List.range filters).map (fun i => st.data (st.pos + filters + i)),
       (List.range filters).map (fun i => st.data (st.pos + i)),
       (List.range filters).map (fun i => st.data (st.pos + 2 * filters + i)),
       (List.range filters).map (fun i => st.data (st.pos + 3 * filters + i))] ∧
     (loadBatchNorm st filters).2.pos = st.pos + 4 * filters) ∧
    (loadBatchNorm ⟨fun m => ((m : ℚ) + 1), 0⟩ 1).1 = [[2], [1], [3], [4]] := by
  refine ⟨⟨?_, ?_⟩, ?_⟩
  · show [(List.range filters).map (fun i => st.data (st.pos + filters + i)),
      (List.range filters).map (fun i => st.data (st.pos + i)),
      (List.range filters).map (fun i => st.data (st.pos + filters + filters + i)),
      (List.range filters).map
        (fun i => st.data (st.pos + filters + filters + filters + i))] = _
    have e2 : (fun i => st.data (st.pos + filters + filters + i)) =
        (fun i => st.data (st.pos + 2 * filters + i)) := by
      funext i; congr 1; ring
    have e3 : (fun i => st.data (st.pos + filters + filters + filters + i)) =
        (fun i => st.data (st.pos + 3 * filters + i)) := by
      funext i; congr 1; ring
    rw [e2, e3]
  · show st.pos + filters + filters + filters + filters = st.pos + 4 * filters
    ring
  · norm_num [loadBatchNorm, readFloats, List.range_succ]

/-- C5. Any convolutional block without batch normalization (`use_bias`
true) aborts the load: line 270 of `src/yolo.py` invokes the nonexistent
`np.formfile` (with the undefined name `bias_shape` as argument), raising
`AttributeError` before any bias value is read, so no bias or kernel is
ever written. -/
theorem claim_C5 (st : FloatStream) (filters input_channels k0 k1 : ℕ) :
    loadConvBlock st filters input_channels k0 k1 false = none := rfl

/-- C6. The header reader parses `major`, `minor`, `revision` as 4-byte
signed little-endian integers, chooses an 8-byte `seen` counter exactly when
`major * 1 + minor ≥ 2` with `major < 1000` and `minor < 1000` (4 bytes
otherwise), discards it, and leaves the byte cursor at offset 20 in the
8-byte case and 16 in the 4-byte case. -/
theorem claim_C6 (bytes : ℕ → ℕ) :
    (load_header ⟨bytes, 0⟩).1.major = (readInt32 ⟨bytes, 0⟩).1 ∧
    (load_header ⟨bytes, 0⟩).1.minor = (readInt32 ⟨bytes, 4⟩).1 ∧
    (load_header ⟨bytes, 0⟩).1.revision = (readInt32 ⟨bytes, 8⟩).1 ∧
    (load_header ⟨bytes, 0⟩).1.seenWidth =
      (if (load_header ⟨bytes, 0⟩).1.major * 1 + (load_header ⟨bytes, 0⟩).1.minor ≥ 2
          ∧ (load_header ⟨bytes, 0⟩).1.major < 1000
          ∧ (load_header ⟨bytes, 0⟩).1.minor < 1000 then 8 else 4) ∧
    (load_header ⟨bytes, 0⟩).2.pos =
      (if (load_header ⟨bytes, 0⟩).1.seenWidth = 8 then 20 else 16) := by
  unfold load_header
  by_cases h : (readInt32 ⟨bytes, 0⟩).1 * 1 + (readInt32 ⟨bytes, (0:ℕ)+4⟩).1 ≥ 2
      ∧ (readInt32 ⟨bytes, 0⟩).1 < 1000 ∧ (readInt32 ⟨bytes, (0:ℕ)+4⟩).1 < 1000
  · simp only [readInt32, byteAt]
    simp only [readInt32, byteAt] at h
    rw [if_pos h]
    have h4 : ((0:ℕ) + 4) = 4 := by norm_num
    refine ⟨rfl, by rw [h4], rfl, ?_, ?_⟩
    · show (8:ℕ) = if _ ∧ _ ∧ _ then 8 else 4
      rw [if_pos h]
    · rfl
  · simp only [readInt32, byteAt]
    simp only [readInt32, byteAt] at h
    rw [if_neg h]
    have h4 : ((0:ℕ) + 4) = 4 := by norm_num
    refine ⟨rfl, by rw [h4], rfl, ?_, ?_⟩
    · show (4:ℕ) = if _ ∧ _ ∧ _ then 8 else 4
      rw [if_neg h]
    · rfl

/-! ## Lemmas about the config parser -/

theorem pySplit_ne_nil (sep : Char) (l : List Char) : pySplit sep l ≠ [] := by
  induction l with
  | nil => simp [pySplit]
  | cons c rest ih =>
    unfold pySplit
    by_cases h : c = sep
    · simp [h]
    · simp only [if_neg h]
      rcases hr : pySplit sep rest with _ | ⟨g, gs⟩
      · simp
      · simp

theorem pySplit_length (sep : Char) (l : List Char) :
    (pySplit sep l).length = l.count sep + 1 := by
  induction l with
  | nil => simp [pySplit]
  | cons c rest ih =>
    unfold pySplit
    by_cases h : c = sep
    · rw [if_pos h]
      simp only [List.length_cons, ih, List.count_cons, h, beq_self_eq_true,
        if_true]
    · simp only [if_neg h]
      rcases hr : pySplit sep rest with _ | ⟨g, gs⟩
      · exact absurd hr (pySplit_ne_nil sep rest)
      · have : (g :: gs).length = rest.count sep + 1 := by rw [← hr, ih]
        simp only [List.length_cons] at this ⊢
        rw [this]
        simp [List.count_cons, h]

theorem processLine_skip (st : List CfgSection) (l : List Char)
    (h : pyStrip l = [] ∨ pyStartsWithChar '#' (pyStrip l) = true) :
    processLine st l = some st := by
  unfold processLine
  rcases h with h | h
  · rw [if_pos h]
  · by_cases hb : pyStrip l = []
    · rw [if_pos hb]
    · rw [if_neg hb, if_pos h]

theorem processLine_badsplit (st : List CfgSection) (rawline : List Char)
    (hne : pyStrip rawline ≠ [])
    (hcm : pyStartsWithChar '#' (pyStrip rawline) = false)
    (hhd : pyStartsWithChar '[' (pyStrip rawline) = false)
    (hsp : (pyStrip rawline).count '=' ≠ 1) :
    processLine st rawline = none := by
  unfold processLine
  rw [if_neg hne, if_neg (by simp [hcm]), if_neg (by simp [hhd])]
  have hlen : ((pySplit '=' (pyStrip rawline)).map pyStrip).length ≠ 2 := by
    rw [List.length_map, pySplit_length]
    omega
  rcases hsplit : (pySplit '=' (pyStrip rawline)).map pyStrip with
    _ | ⟨a, _ | ⟨b, _ | ⟨c, rest⟩⟩⟩
  · rfl
  · rfl
  · rw [hsplit] at hlen
    simp at hlen
  · rfl

theorem processLine_nosec (rawline : List Char)
    (hne : pyStrip rawline ≠ [])
    (hcm : pyStartsWithChar '#' (pyStrip rawline) = false)
    (hhd : pyStartsWithChar '[' (pyStrip rawline) = false) :
    processLine [] rawline = none := by
  unfold processLine
  rw [if_neg hne, if_neg (by simp [hcm]), if_neg (by simp [hhd])]
  rcases hsplit : (pySplit '=' (pyStrip rawline)).map pyStrip with
    _ | ⟨a, _ | ⟨b, _ | ⟨c, rest⟩⟩⟩
  · rfl
  · rfl
  · rfl
  · rfl

theorem foldlM_processLine_skip (pre : List (List Char)) (st : List CfgSection)
    (h : ∀ l ∈ pre, pyStrip l = [] ∨ pyStartsWithChar '#' (pyStrip l) = true) :
    pre.foldlM processLine st = some st := by
  induction pre with
  | nil => rfl
  | cons l rest ih =>
    rw [List.foldlM_cons, processLine_skip st l (h l (by simp))]
    exact ih (fun x hx => h x (by simp [hx]))

theorem parse_cfg_decompose (pre : List (List Char)) (line : List Char)
    (post : List (List Char)) :
    parse_cfg (pre ++ line :: post) =
      (parse_cfg pre).bind (fun st =>
        (processLine st line).bind (fun st2 => post.foldlM processLine st2)) := by
  unfold parse_cfg
  rw [List.foldlM_append]
  rcases h : List.foldlM processLine [] pre with _ | st <;> rfl

/-- C9. `parse_cfg` fails on the whole input (no partial result) whenever
some non-blank, non-comment, non-header line does not split on `=` into
exactly two parts (the unpacking `ValueError`), and whenever a key/value
line occurs before the first section header (the unbound `current_section`
`NameError`). -/
theorem claim_C9 :
    (∀ pre rawline post, pyStrip rawline ≠ [] →
      pyStartsWithChar '#' (pyStrip rawline) = false →
      pyStartsWithChar '[' (pyStrip rawline) = false →
      (pyStrip rawline).count '=' ≠ 1 →
      parse_cfg (pre ++ rawline :: post) = none) ∧
    (∀ pre rawline post,
      (∀ l ∈ pre, pyStrip l = [] ∨ pyStartsWithChar '#' (pyStrip l) = true) →
      pyStrip rawline ≠ [] →
      pyStartsWithChar '#' (pyStrip rawline) = false →
      pyStartsWithChar '[' (pyStrip rawline) = false →
      parse_cfg (pre ++ rawline :: post) = none) := by
  constructor
  · intro pre rawline post hne hcm hhd hsp
    rw [parse_cfg_decompose]
    rcases h : parse_cfg pre with _ | st
    · rfl
    · show (processLine st rawline).bind
        (fun st2 => List.foldlM processLine st2 post) = none
      rw [processLine_badsplit st rawline hne hcm hhd hsp]
      rfl
  · intro pre rawline post hpre hne hcm hhd
    rw [parse_cfg_decompose]
    have h1 : parse_cfg pre = some [] := foldlM_processLine_skip pre [] hpre
    rw [h1]
    show (some ([] : List CfgSection)).bind (fun st =>
      (processLine st rawline).bind
        (fun st2 => List.foldlM processLine st2 post)) = none
    show (processLine [] rawline).bind
      (fun st2 => List.foldlM processLine st2 post) = none
    rw [processLine_nosec rawline hne hcm hhd]
    rfl

/-- Witness for C9: a line with no `=` anywhere fails, and a key/value line
before any header fails. -/
theorem claim_C9_witness :
    parse_cfg ["abc".data] = none ∧
    parse_cfg ["# hi".data, "k = 1".data] = none := by
  constructor
  · exact claim_C9.1 [] "abc".data [] (by decide) (by decide) (by decide)
      (by decide)
  · exact claim_C9.2 ["# hi".data] "k = 1".data [] (by decide) (by decide)
      (by decide) (by decide)

/-- C8. Token coercion tries integer, then float, then keeps the string
(first success wins); a one-token value is stored as a scalar and a
multi-token value as an ordered list; concretely `"3"` is integer 3, `"3.5"`
is float 3.5, `"abc"` stays a string, `k = 1,2,3` stores the list `[1,2,3]`
and `k = 1` stores the scalar `1`. -/
theorem claim_C8 :
    (∀ tok n, pyParseInt tok = some n → coerceToken tok = PyValue.intV n) ∧
    (∀ tok f, pyParseInt tok = none → pyParseFloat tok = some f →
      coerceToken tok = PyValue.floatV f) ∧
    (∀ tok, pyParseInt tok = none → pyParseFloat tok = none →
      coerceToken tok = PyValue.strV tok) ∧
    (∀ v u, pySplit ',' v = [u] →
      parseValue v = CfgValue.scalar (coerceToken (pyStrip u))) ∧
    (∀ v l, ((pySplit ',' v).map pyStrip).map coerceToken = l → l.length ≠ 1 →
      parseValue v = CfgValue.list l) ∧
    coerceToken "3".data = PyValue.intV 3 ∧
    coerceToken "3.5".data = PyValue.floatV (PyFloat.finite (7/2)) ∧
    coerceToken "abc".data = PyValue.strV "abc".data ∧
    processLine [("b".data, [])] "k = 1,2,3".data =
      some [("b".data,
        [("k".data, CfgValue.list [PyValue.intV 1, PyValue.intV 2, PyValue.intV 3])])] ∧
    processLine [("b".data, [])] "k = 1".data =
      some [("b".data, [("k".data, CfgValue.scalar (PyValue.intV 1))])] := by
  refine ⟨?_, ?_, ?_, ?_, ?_, by decide, ?_, by decide, by decide, by decide⟩
  · intro tok n h
    unfold coerceToken
    rw [h]
  · intro tok f h1 h2
    unfold coerceToken
    rw [h1, h2]
  · intro tok h1 h2
    unfold coerceToken
    rw [h1, h2]
  · intro v u h
    unfold parseValue
    rw [h]
    rfl
  · intro v l h hne
    unfold parseValue
    rw [h]
    rcases l with _ | ⟨a, _ | ⟨b, rest⟩⟩
    · rfl
    · simp at hne
    · rfl
  · have h : pyParseFloat "3.5".data =
        some (PyFloat.finite ((1:ℤ) * ((3:ℚ) + 5 / 10 ^ (1:ℕ)))) := by
      simp +decide [pyParseFloat, pyStrip, splitSign, pySplitP, parseMantissa,
        pySplit, digitsCore, digitsRest, isDigitCh, digitsVal, countDigits,
        digitVal, isExpChar, toLowerAscii, isPySpace]
    have h1 : pyParseInt "3.5".data = none := by decide
    unfold coerceToken
    rw [h1, h]
    norm_num

/-- Witness for C8: the first coercion branch applied to the token `"42"`. -/
theorem claim_C8_witness : coerceToken "42".data = PyValue.intV 42 :=
  claim_C8.1 "42".data 42 (by decide)


/-! ## Lemmas about the label encoder -/

theorem find?_append_aux {α : Type} (l1 l2 : List α) (p : α → Bool) :
    (l1 ++ l2).find? p =
      match l1.find? p with
      | some a => some a
      | none => l2.find? p := by
  induction l1 with
  | nil => rfl
  | cons a l ih =>
    by_cases hp : p a
    · rw [List.cons_append, List.find?_cons_of_pos _ hp, List.find?_cons_of_pos _ hp]
    · rw [List.cons_append, List.find?_cons_of_neg _ (by simpa using hp),
        List.find?_cons_of_neg _ (by simpa using hp), ih]

theorem find?_singleton {α : Type} (x : α) (p : α → Bool) :
    [x].find? p = if p x then some x else none := by
  by_cases hp : p x
  · rw [List.find?_cons_of_pos _ hp, if_pos hp]
  · rw [List.find?_cons_of_neg _ (by simpa using hp), if_neg hp]
    rfl

theorem cellSpec_eq_of_found (W H s : ℚ) (d0 d1 : ℕ) (objs : List LabelObj)
    (cy cx : ℕ) (o : LabelObj) (ci : ℕ)
    (hf : firstObjAt W H s d0 d1 objs cy cx = some o)
    (hci : classIndex o.name = some ci) :
    ∀ ch, cellSpec W H s d0 d1 objs cy cx ch = cellVec W H s o ci ch := by
  intro ch
  unfold cellSpec
  rw [hf]
  show (match classIndex o.name with
    | some ci2 => cellVec W H s o ci2 ch
    | none => 0) = cellVec W H s o ci ch
  rw [hci]

theorem cellSpec_eq_of_none (W H s : ℚ) (d0 d1 : ℕ) (objs : List LabelObj)
    (cy cx : ℕ) (hf : firstObjAt W H s d0 d1 objs cy cx = none) :
    ∀ ch, cellSpec W H s d0 d1 objs cy cx ch = 0 := by
  intro ch
  unfold cellSpec
  rw [hf]

theorem cellSpec_append_of_ne (W H s : ℚ) (d0 d1 : ℕ) (prev : List LabelObj)
    (obj : LabelObj) (cy cx ch : ℕ)
    (h : objCell W H s d0 d1 obj ≠ some (cy, cx)) :
    cellSpec W H s d0 d1 (prev ++ [obj]) cy cx ch =
      cellSpec W H s d0 d1 prev cy cx ch := by
  unfold cellSpec firstObjAt
  rw [find?_append_aux]
  rcases hf : prev.find? (fun o => objCell W H s d0 d1 o == some (cy, cx)) with _ | o
  · rw [find?_singleton, if_neg (by simpa using h)]
  · rfl

theorem cellSpec_append_of_found (W H s : ℚ) (d0 d1 : ℕ) (prev : List LabelObj)
    (obj o0 : LabelObj) (cy cx ch : ℕ)
    (h : firstObjAt W H s d0 d1 prev cy cx = some o0) :
    cellSpec W H s d0 d1 (prev ++ [obj]) cy cx ch =
      cellSpec W H s d0 d1 prev cy cx ch := by
  unfold cellSpec firstObjAt
  unfold firstObjAt at h
  rw [find?_append_aux, h]

theorem cellSpec_append_new (W H s : ℚ) (d0 d1 : ℕ) (prev : List LabelObj)
    (obj : LabelObj) (cy cx ch ci : ℕ)
    (hobj : objCell W H s d0 d1 obj = some (cy, cx))
    (hnone : firstObjAt W H s d0 d1 prev cy cx = none)
    (hci : classIndex obj.name = some ci) :
    cellSpec W H s d0 d1 (prev ++ [obj]) cy cx ch =
      cellVec W H s obj ci ch := by
  have hf : firstObjAt W H s d0 d1 (prev ++ [obj]) cy cx = some obj := by
    unfold firstObjAt
    unfold firstObjAt at hnone
    rw [find?_append_aux, hnone, find?_singleton, if_pos (by simp [hobj])]
  exact cellSpec_eq_of_found W H s d0 d1 (prev ++ [obj]) cy cx obj ci hf hci ch

theorem writeCell_data_target (t : Tensor3) (cy cx : ℕ) (g : GridCoords)
    (ci ch : ℕ) :
    (writeCell t cy cx g ci).data cy cx ch =
      if ch = 0 then 1 else if ch = 1 then g.x else if ch = 2 then g.y
      else if ch = 3 then g.w else if ch = 4 then g.h
      else if ch = 10 + ci then 1 else t.data cy cx ch := by
  show (if cy = cy ∧ cx = cx then
      if ch = 0 then (1:ℚ) else if ch = 1 then g.x else if ch = 2 then g.y
      else if ch = 3 then g.w else if ch = 4 then g.h
      else if ch = 10 + ci then 1 else t.data cy cx ch
    else t.data cy cx ch) = _
  rw [if_pos ⟨rfl, rfl⟩]

theorem writeCell_data_other (t : Tensor3) (cy cx : ℕ) (g : GridCoords)
    (ci : ℕ) (a b ch : ℕ) (h : ¬(a = cy ∧ b = cx)) :
    (writeCell t cy cx g ci).data a b ch = t.data a b ch := by
  show (if a = cy ∧ b = cx then
      if ch = 0 then (1:ℚ) else if ch = 1 then g.x else if ch = 2 then g.y
      else if ch = 3 then g.w else if ch = 4 then g.h
      else if ch = 10 + ci then 1 else t.data a b ch
    else t.data a b ch) = _
  rw [if_neg h]

theorem encodeObj_cases {W H s : ℚ} {t t2 : Tensor3} {obj : LabelObj}
    (h : encodeObj W H s t obj = some t2) :
    ∃ ci cy cx, classIndex obj.name = some ci ∧
      objCell W H s t.dim0 t.dim1 obj = some (cy, cx) ∧ 0 < t.dim2 ∧
      ((t.data cy cx 0 = 0 ∧ 5 ≤ t.dim2 ∧ 10 + ci < t.dim2 ∧
        t2 = writeCell t cy cx (bndbox_to_coords obj.bndbox W H s) ci) ∨
       (t.data cy cx 0 ≠ 0 ∧ t2 = t)) := by
  unfold encodeObj at h
  rcases hci : classIndex obj.name with _ | ci
  · rw [hci] at h; simp at h
  rw [hci] at h
  simp only [Option.some_bind] at h
  rcases hcy : npIdx (bndbox_to_coords obj.bndbox W H s).cell_y t.dim0 with _ | cy
  · rw [hcy] at h; simp at h
  rw [hcy] at h
  simp only [Option.some_bind] at h
  rcases hcx : npIdx (bndbox_to_coords obj.bndbox W H s).cell_x t.dim1 with _ | cx
  · rw [hcx] at h; simp at h
  rw [hcx] at h
  simp only [Option.some_bind] at h
  refine ⟨ci, cy, cx, rfl, ?_, ?_⟩
  · unfold objCell
    simp only [hcy, hcx, Option.some_bind]
    rfl
  split_ifs at h with h1 h2 h3
  · injection h with h4
    exact ⟨h1, Or.inl ⟨h2, h3.1, h3.2, h4.symm⟩⟩
  · injection h with h4
    exact ⟨h1, Or.inr ⟨h2, h4.symm⟩⟩

theorem encodeObj_char {W H s : ℚ} {t t2 : Tensor3} {obj : LabelObj}
    (prev : List LabelObj)
    (h : encodeObj W H s t obj = some t2)
    (hchar : ∀ cy cx ch, t.data cy cx ch =
      cellSpec W H s t.dim0 t.dim1 prev cy cx ch)
    (hprev : ∀ o ∈ prev, ∃ ci0, classIndex o.name = some ci0) :
    t2.dim0 = t.dim0 ∧ t2.dim1 = t.dim1 ∧ t2.dim2 = t.dim2 ∧
    (∀ cy cx ch, t2.data cy cx ch =
      cellSpec W H s t.dim0 t.dim1 (prev ++ [obj]) cy cx ch) := by
  obtain ⟨ci, cy0, cx0, hci, hcell, hd2, hbranch⟩ := encodeObj_cases h
  rcases hbranch with ⟨hzero, hge5, hlt, ht2⟩ | ⟨hnz, ht2⟩
  · -- the cell was free: the object is written
    have hnone : firstObjAt W H s t.dim0 t.dim1 prev cy0 cx0 = none := by
      rcases hf : firstObjAt W H s t.dim0 t.dim1 prev cy0 cx0 with _ | o
      · rfl
      · obtain ⟨ci0, hci0⟩ := hprev o (List.mem_of_find?_eq_some hf)
        have hv := hchar cy0 cx0 0
        rw [cellSpec_eq_of_found W H s t.dim0 t.dim1 prev cy0 cx0 o ci0 hf hci0 0,
          hzero] at hv
        unfold cellVec at hv
        simp only [if_pos rfl] at hv
        exact absurd hv.symm (by norm_num)
    refine ⟨by rw [ht2]; rfl, by rw [ht2]; rfl, by rw [ht2]; rfl, ?_⟩
    intro cy cx ch
    rw [ht2]
    by_cases hcc : cy = cy0 ∧ cx = cx0
    · obtain ⟨rfl, rfl⟩ := hcc
      rw [writeCell_data_target,
        cellSpec_append_new W H s t.dim0 t.dim1 prev obj cy cx ch ci hcell
          hnone hci]
      unfold cellVec
      split_ifs <;> try rfl
      rw [hchar cy cx ch, cellSpec_eq_of_none W H s t.dim0 t.dim1 prev cy cx hnone ch]
    · have hne : objCell W H s t.dim0 t.dim1 obj ≠ some (cy, cx) := by
        rw [hcell]
        intro hcon
        obtain ⟨h1, h2⟩ := Prod.mk.injEq .. ▸ Option.some.inj hcon
        exact hcc ⟨h1.symm, h2.symm⟩
      rw [writeCell_data_other t cy0 cx0 _ ci cy cx ch hcc,
        cellSpec_append_of_ne W H s t.dim0 t.dim1 prev obj cy cx ch hne]
      exact hchar cy cx ch
  · -- the cell was taken: the object is silently dropped
    obtain ⟨o0, hf⟩ : ∃ o0, firstObjAt W H s t.dim0 t.dim1 prev cy0 cx0 = some o0 := by
      rcases hf : firstObjAt W H s t.dim0 t.dim1 prev cy0 cx0 with _ | o0
      · have hv := hchar cy0 cx0 0
        rw [cellSpec_eq_of_none W H s t.dim0 t.dim1 prev cy0 cx0 hf 0] at hv
        exact absurd hv hnz
      · exact ⟨o0, rfl⟩
    refine ⟨by rw [ht2], by rw [ht2], by rw [ht2], ?_⟩
    intro cy cx ch
    rw [ht2]
    by_cases hcc : cy = cy0 ∧ cx = cx0
    · obtain ⟨rfl, rfl⟩ := hcc
      rw [cellSpec_append_of_found W H s t.dim0 t.dim1 prev obj o0 cy cx ch hf]
      exact hchar cy cx ch
    · have hne : objCell W H s t.dim0 t.dim1 obj ≠ some (cy, cx) := by
        rw [hcell]
        intro hcon
        obtain ⟨h1, h2⟩ := Prod.mk.injEq .. ▸ Option.some.inj hcon
        exact hcc ⟨h1.symm, h2.symm⟩
      rw [cellSpec_append_of_ne W H s t.dim0 t.dim1 prev obj cy cx ch hne]
      exact hchar cy cx ch

theorem objCell_elim {W H s : ℚ} {d0 d1 : ℕ} {obj : LabelObj} {cy cx : ℕ}
    (h : objCell W H s d0 d1 obj = some (cy, cx)) :
    npIdx (bndbox_to_coords obj.bndbox W H s).cell_y d0 = some cy ∧
    npIdx (bndbox_to_coords obj.bndbox W H s).cell_x d1 = some cx := by
  have h2 : (npIdx (bndbox_to_coords obj.bndbox W H s).cell_y d0).bind
      (fun cy2 => Option.map (fun cx2 => (cy2, cx2))
        (npIdx (bndbox_to_coords obj.bndbox W H s).cell_x d1)) = some (cy, cx) := h
  rw [Option.bind_eq_some] at h2
  obtain ⟨cy0, hy, h3⟩ := h2
  rw [Option.map_eq_some'] at h3
  obtain ⟨cx0, hx, h4⟩ := h3
  obtain ⟨e1, e2⟩ := Prod.mk.injEq .. ▸ h4
  rw [e1] at hy
  rw [e2] at hx
  exact ⟨hy, hx⟩

theorem encodeFold_char {W H s : ℚ} (objs : List LabelObj) :
    ∀ (prev : List LabelObj) (t t2 : Tensor3),
      List.foldlM (fun tt obj => encodeObj W H s tt obj) t objs = some t2 →
      (∀ o ∈ prev, ∃ ci0, classIndex o.name = some ci0) →
      (∀ cy cx ch, t.data cy cx ch = cellSpec W H s t.dim0 t.dim1 prev cy cx ch) →
      t2.dim0 = t.dim0 ∧ t2.dim1 = t.dim1 ∧ t2.dim2 = t.dim2 ∧
      (∀ o ∈ prev ++ objs, ∃ ci0, classIndex o.name = some ci0) ∧
      (∀ cy cx ch, t2.data cy cx ch =
        cellSpec W H s t.dim0 t.dim1 (prev ++ objs) cy cx ch) := by
  induction objs with
  | nil =>
    intro prev t t2 h hprev hchar
    have ht : t = t2 := Option.some.inj h
    subst ht
    refine ⟨rfl, rfl, rfl, ?_, ?_⟩
    · rw [List.append_nil]; exact hprev
    · rw [List.append_nil]; exact hchar
  | cons obj rest ih =>
    intro prev t t2 h hprev hchar
    rw [List.foldlM_cons] at h
    rcases he : encodeObj W H s t obj with _ | t1
    · rw [he] at h; simp at h
    rw [he] at h
    simp only [Option.bind_eq_bind, Option.some_bind] at h
    obtain ⟨ci, hci⟩ : ∃ ci, classIndex obj.name = some ci := by
      obtain ⟨ci, cy, cx, hci, -, -, -⟩ := encodeObj_cases he
      exact ⟨ci, hci⟩
    have hprev2 : ∀ o ∈ prev ++ [obj], ∃ ci0, classIndex o.name = some ci0 := by
      intro o ho
      rcases List.mem_append.mp ho with ho | ho
      · exact hprev o ho
      · rw [List.mem_singleton.mp ho]; exact ⟨ci, hci⟩
    obtain ⟨hd0, hd1, hd2, hchar1⟩ := encodeObj_char prev he hchar hprev
    have hchar1b : ∀ cy cx ch, t1.data cy cx ch =
        cellSpec W H s t1.dim0 t1.dim1 (prev ++ [obj]) cy cx ch := by
      intro cy cx ch
      rw [hd0, hd1]
      exact hchar1 cy cx ch
    obtain ⟨g0, g1, g2, gprev, gchar⟩ := ih (prev ++ [obj]) t1 t2 h hprev2 hchar1b
    have hassoc : (prev ++ [obj]) ++ rest = prev ++ obj :: rest := by simp
    refine ⟨g0.trans hd0, g1.trans hd1, g2.trans hd2, ?_, ?_⟩
    · rw [← hassoc]; exact gprev
    · intro cy cx ch
      have hv := gchar cy cx ch
      rw [hd0, hd1, hassoc] at hv
      exact hv

theorem preprocess_label_char {label : PyLabel} {s b c : ℕ} {t : Tensor3}
    (h : preprocess_label label s b c = some t) :
    t.dim0 = s ∧ t.dim1 = s ∧ t.dim2 = b * 5 + c ∧
    (∀ o ∈ label.objects, ∃ ci0, classIndex o.name = some ci0) ∧
    (∀ cy cx ch, t.data cy cx ch =
      cellSpec (label.imageSize.width : ℚ) (label.imageSize.height : ℚ) (s : ℚ)
        s s label.objects cy cx ch) := by
  unfold preprocess_label at h
  have hbase : ∀ cy cx ch, (zeros3 s s (b * 5 + c)).data cy cx ch =
      cellSpec (label.imageSize.width : ℚ) (label.imageSize.height : ℚ) (s : ℚ)
        (zeros3 s s (b * 5 + c)).dim0 (zeros3 s s (b * 5 + c)).dim1 [] cy cx ch := by
    intro cy cx ch
    rw [cellSpec_eq_of_none _ _ _ _ _ [] cy cx rfl ch]
    rfl
  obtain ⟨h0, h1, h2, hobjs, hchar⟩ :=
    encodeFold_char label.objects [] (zeros3 s s (b * 5 + c)) t h
      (by intro o ho; exact absurd ho (List.not_mem_nil o)) hbase
  refine ⟨h0, h1, h2, ?_, ?_⟩
  · intro o ho
    exact hobjs o (by simpa using ho)
  · intro cy cx ch
    have hv := hchar cy cx ch
    rw [List.nil_append] at hv
    exact hv

/-- C7. For every annotation the encoder accepts: every cell's confidence
channel is exactly 0 or exactly 1; channels 5..9 (the second box slot) stay
zero everywhere; and every cell's contents are exactly those written for the
first object (in input order) whose center falls in that cell — later
objects mapped to the same cell leave no trace (silently dropped). -/
theorem claim_C7 (label : PyLabel) (s b c : ℕ) (t : Tensor3)
    (h : preprocess_label label s b c = some t) :
    (∀ cy cx, t.data cy cx 0 = 0 ∨ t.data cy cx 0 = 1) ∧
    (∀ cy cx ch, 5 ≤ ch → ch < 10 → t.data cy cx ch = 0) ∧
    (∀ cy cx ch, t.data cy cx ch =
      cellSpec (label.imageSize.width : ℚ) (label.imageSize.height : ℚ) (s : ℚ)
        s s label.objects cy cx ch) := by
  obtain ⟨-, -, -, hobjs, hchar⟩ := preprocess_label_char h
  refine ⟨?_, ?_, hchar⟩
  · intro cy cx
    rcases hf : firstObjAt (label.imageSize.width : ℚ) (label.imageSize.height : ℚ)
        (s : ℚ) s s label.objects cy cx with _ | o
    · left
      rw [hchar cy cx 0, cellSpec_eq_of_none _ _ _ _ _ _ cy cx hf 0]
    · obtain ⟨ci0, hci0⟩ := hobjs o (List.mem_of_find?_eq_some hf)
      right
      rw [hchar cy cx 0, cellSpec_eq_of_found _ _ _ _ _ _ cy cx o ci0 hf hci0 0]
      unfold cellVec
      simp
  · intro cy cx ch h5 h10
    rcases hf : firstObjAt (label.imageSize.width : ℚ) (label.imageSize.height : ℚ)
        (s : ℚ) s s label.objects cy cx with _ | o
    · rw [hchar cy cx ch, cellSpec_eq_of_none _ _ _ _ _ _ cy cx hf ch]
    · obtain ⟨ci0, hci0⟩ := hobjs o (List.mem_of_find?_eq_some hf)
      rw [hchar cy cx ch, cellSpec_eq_of_found _ _ _ _ _ _ cy cx o ci0 hf hci0 ch]
      unfold cellVec
      split_ifs <;> first | rfl | omega

theorem encodeFold_total {W H s : ℚ} {d0 d1 d2 : ℕ} (objs : List LabelObj)
    (hd : 5 ≤ d2)
    (hobj : ∀ o ∈ objs, ∃ ci, classIndex o.name = some ci ∧ 10 + ci < d2)
    (hcell : ∀ o ∈ objs, ∃ cell, objCell W H s d0 d1 o = some cell) :
    ∀ t : Tensor3, t.dim0 = d0 → t.dim1 = d1 → t.dim2 = d2 →
      ∃ t2, List.foldlM (fun tt obj => encodeObj W H s tt obj) t objs = some t2 := by
  induction objs with
  | nil =>
    intro t _ _ _
    exact ⟨t, rfl⟩
  | cons obj rest ih =>
    intro t ht0 ht1 ht2
    obtain ⟨ci, hci, hlt⟩ := hobj obj (by simp)
    obtain ⟨cell, hc⟩ := hcell obj (by simp)
    obtain ⟨cy, cx⟩ := cell
    obtain ⟨hy, hx⟩ := objCell_elim hc
    have hrest1 : ∀ o ∈ rest, ∃ ci, classIndex o.name = some ci ∧ 10 + ci < d2 :=
      fun o ho => hobj o (by simp [ho])
    have hrest2 : ∀ o ∈ rest, ∃ cell, objCell W H s d0 d1 o = some cell :=
      fun o ho => hcell o (by simp [ho])
    have hpos : 0 < t.dim2 := by omega
    by_cases hz : t.data cy cx 0 = 0
    · have he : encodeObj W H s t obj =
          some (writeCell t cy cx (bndbox_to_coords obj.bndbox W H s) ci) := by
        unfold encodeObj
        rw [hci]
        simp only [Option.some_bind]
        rw [ht0, hy]
        simp only [Option.some_bind]
        rw [ht1, hx]
        simp only [Option.some_bind]
        rw [if_pos hpos, if_pos hz, if_pos ⟨by omega, by omega⟩]
      obtain ⟨t2, h2⟩ := ih hrest1 hrest2
        (writeCell t cy cx (bndbox_to_coords obj.bndbox W H s) ci) ht0 ht1 ht2
      refine ⟨t2, ?_⟩
      rw [List.foldlM_cons, he]
      simpa using h2
    · have he : encodeObj W H s t obj = some t := by
        unfold encodeObj
        rw [hci]
        simp only [Option.some_bind]
        rw [ht0, hy]
        simp only [Option.some_bind]
        rw [ht1, hx]
        simp only [Option.some_bind]
        rw [if_pos hpos, if_neg hz]
      obtain ⟨t2, h2⟩ := ih hrest1 hrest2 t ht0 ht1 ht2
      refine ⟨t2, ?_⟩
      rw [List.foldlM_cons, he]
      simpa using h2

theorem preprocess_label_total (label : PyLabel) (s b c : ℕ)
    (hd : 5 ≤ b * 5 + c)
    (hobj : ∀ o ∈ label.objects,
      ∃ ci, classIndex o.name = some ci ∧ 10 + ci < b * 5 + c)
    (hcell : ∀ o ∈ label.objects, ∃ cell,
      objCell (label.imageSize.width : ℚ) (label.imageSize.height : ℚ) (s : ℚ)
        s s o = some cell) :
    ∃ t, preprocess_label label s b c = some t := by
  unfold preprocess_label
  exact encodeFold_total label.objects hd hobj hcell (zeros3 s s (b * 5 + c))
    rfl rfl rfl

/-- Witness for C7 at a concrete annotation with two objects colliding in
cell (1, 2) of a 7×7 grid over a 400×400 image. -/
theorem claim_C7_witness :
    ∃ t, preprocess_label
        ⟨⟨3, 400, 400⟩, [⟨"person".data, (100, 200, 50, 150)⟩,
          ⟨"dog".data, (110, 190, 60, 140)⟩]⟩ 7 2 20 = some t ∧
      (∀ cy cx, t.data cy cx 0 = 0 ∨ t.data cy cx 0 = 1) ∧
      (∀ cy cx ch, 5 ≤ ch → ch < 10 → t.data cy cx ch = 0) := by
  have hobj : ∀ o ∈ [(⟨"person".data, (100, 200, 50, 150)⟩ : LabelObj),
      ⟨"dog".data, (110, 190, 60, 140)⟩],
      ∃ ci, classIndex o.name = some ci ∧ 10 + ci < 2 * 5 + 20 := by
    intro o ho
    simp only [List.mem_cons, List.not_mem_nil, or_false] at ho
    rcases ho with rfl | rfl
    · exact ⟨14, by decide, by norm_num⟩
    · exact ⟨11, by decide, by norm_num⟩
  have hcell : ∀ o ∈ [(⟨"person".data, (100, 200, 50, 150)⟩ : LabelObj),
      ⟨"dog".data, (110, 190, 60, 140)⟩],
      ∃ cell, objCell ((400:ℤ) : ℚ) ((400:ℤ) : ℚ) ((7:ℕ) : ℚ)
        7 7 o = some cell := by
    intro o ho
    simp only [List.mem_cons, List.not_mem_nil, or_false] at ho
    rcases ho with rfl | rfl
    · exact ⟨(1, 2), by norm_num [objCell, bndbox_to_coords, pyInt, npIdx]; rfl⟩
    · exact ⟨(1, 2), by norm_num [objCell, bndbox_to_coords, pyInt, npIdx]; rfl⟩
  obtain ⟨t, ht⟩ := preprocess_label_total
    ⟨⟨3, 400, 400⟩, [⟨"person".data, (100, 200, 50, 150)⟩,
      ⟨"dog".data, (110, 190, 60, 140)⟩]⟩ 7 2 20 (by norm_num) hobj hcell
  obtain ⟨c1, c2, -⟩ := claim_C7
    ⟨⟨3, 400, 400⟩, [⟨"person".data, (100, 200, 50, 150)⟩,
      ⟨"dog".data, (110, 190, 60, 140)⟩]⟩ 7 2 20 t ht
  exact ⟨t, ht, c1, c2⟩

/-! ## Lemmas about the label decoder -/

theorem argmaxAux_zeros (n : ℕ) (bi : ℕ) (bv : ℚ) (h : 0 ≤ bv) :
    ∀ i, argmaxAux (List.replicate n 0) bi bv i = bi := by
  induction n with
  | zero => intro i; rfl
  | succ m ih =>
    intro i
    show argmaxAux ((0:ℚ) :: List.replicate m 0) bi bv i = bi
    unfold argmaxAux
    rw [if_neg (by linarith)]
    exact ih (i + 1)

theorem argmaxAux_onehot (a : ℕ) :
    ∀ (m bi i : ℕ), argmaxAux (List.replicate a 0 ++ 1 :: List.replicate m 0)
      bi 0 i = i + a := by
  induction a with
  | zero =>
    intro m bi i
    show argmaxAux ((1:ℚ) :: List.replicate m 0) bi 0 i = i
    unfold argmaxAux
    rw [if_pos (by norm_num)]
    exact argmaxAux_zeros m i 1 (by norm_num) (i + 1)
  | succ a2 ih =>
    intro m bi i
    show argmaxAux ((0:ℚ) :: (List.replicate a2 0 ++ 1 :: List.replicate m 0))
      bi 0 i = i + (a2 + 1)
    unfold argmaxAux
    rw [if_neg (by norm_num)]
    rw [ih m bi (i + 1)]
    omega

theorem range_map_onehot (n ci : ℕ) (h : ci < n) (f : ℕ → ℚ)
    (hf : ∀ k, k < n → f k = if k = ci then 1 else 0) :
    (List.range n).map f =
      List.replicate ci 0 ++ 1 :: List.replicate (n - ci - 1) 0 := by
  apply List.ext_getElem
  · simp
    omega
  · intro i hi hi2
    rw [List.getElem_map, List.getElem_range]
    have hlen : i < n := by simpa using hi
    rw [hf i hlen]
    by_cases hic : i = ci
    · subst hic
      rw [if_pos rfl]
      rw [List.getElem_append_right (by simp)]
      simp
    · rw [if_neg hic]
      by_cases hlt : i < ci
      · rw [List.getElem_append_left (by simpa using hlt)]
        simp
      · have hge : (List.replicate ci (0:ℚ)).length ≤ i := by simp; omega
        rw [List.getElem_append_right hge]
        have hidx : i - (List.replicate ci (0:ℚ)).length = (i - ci - 1) + 1 := by
          simp
          omega
        simp only [hidx, List.getElem_cons_succ]
        simp

theorem npArgmax_onehot (n ci : ℕ) (h : ci < n) (f : ℕ → ℚ)
    (hf : ∀ k, k < n → f k = if k = ci then 1 else 0) :
    npArgmax ((List.range n).map f) = some ci := by
  rw [range_map_onehot n ci h f hf]
  rcases ci with _ | a
  · show some (argmaxAux (List.replicate (n - 0 - 1) (0:ℚ)) 0 1 1) = some 0
    rw [argmaxAux_zeros (n - 0 - 1) 0 1 (by norm_num) 1]
  · show some (argmaxAux (List.replicate a (0:ℚ) ++ 1 ::
      List.replicate (n - (a + 1) - 1) 0) 0 0 1) = some (a + 1)
    rw [argmaxAux_onehot a (n - (a + 1) - 1) 0 1]
    exact congrArg some (by omega)

theorem classIndex_spec {nm : List Char} {ci : ℕ}
    (h : classIndex nm = some ci) :
    ci < 20 ∧ INDEX_TO_CLASS_NAME.get? ci = some nm := by
  unfold classIndex at h
  rcases hf : CLASS_NAME_TO_INDEX.find? (fun p => p.1 == nm) with _ | p
  · rw [hf] at h; simp at h
  · rw [hf] at h
    have hmem := List.mem_of_find?_eq_some hf
    have hpred := List.find?_some hf
    have hname : p.1 = nm := by simpa using hpred
    have hci : p.2 = ci := Option.some.inj h
    constructor
    · have hall : ∀ q ∈ CLASS_NAME_TO_INDEX, q.2 < 20 := by decide
      rw [← hci]
      exact hall p hmem
    · have hall : ∀ q ∈ CLASS_NAME_TO_INDEX,
          INDEX_TO_CLASS_NAME.get? q.2 = some q.1 := by decide
      rw [← hci, ← hname]
      exact hall p hmem

theorem filterMap_congr_aux {α β : Type} (l : List α) (f g : α → Option β)
    (h : ∀ a ∈ l, f a = g a) : l.filterMap f = l.filterMap g := by
  induction l with
  | nil => rfl
  | cons a rest ih =>
    rw [List.filterMap_cons, List.filterMap_cons, h a (by simp),
      ih (fun x hx => h x (by simp [hx]))]

theorem find?_congr_aux {α : Type} (l : List α) (p q : α → Bool)
    (h : ∀ a ∈ l, p a = q a) : l.find? p = l.find? q := by
  induction l with
  | nil => rfl
  | cons a rest ih =>
    by_cases hp : p a
    · rw [List.find?_cons_of_pos _ hp, List.find?_cons_of_pos _ (h a (by simp) ▸ hp)]
    · rw [List.find?_cons_of_neg _ (by simpa using hp),
        List.find?_cons_of_neg _ (by rw [← h a (by simp)]; simpa using hp),
        ih (fun x hx => h x (by simp [hx]))]

theorem mem_gridCells {s : ℕ} {cy cx : ℕ} :
    (cy, cx) ∈ gridCells s ↔ cy < s ∧ cx < s := by
  unfold gridCells
  rw [List.mem_flatMap]
  constructor
  · rintro ⟨a, ha, hb⟩
    rw [List.mem_map] at hb
    obtain ⟨b, hb2, heq⟩ := hb
    obtain ⟨e1, e2⟩ := Prod.mk.injEq .. ▸ heq
    rw [List.mem_range] at ha hb2
    exact ⟨e1 ▸ ha, e2 ▸ hb2⟩
  · rintro ⟨h1, h2⟩
    exact ⟨cy, List.mem_range.mpr h1,
      List.mem_map.mpr ⟨cx, List.mem_range.mpr h2, rfl⟩⟩

theorem gridCells_nodup (s : ℕ) : (gridCells s).Nodup := by
  have he : gridCells s = (List.range s).product (List.range s) := rfl
  rw [he]
  exact List.Nodup.product (List.nodup_range s) (List.nodup_range s)

theorem foldlM_decode_eq (t : Tensor3) (W H : ℚ) (g : ℕ × ℕ → Option LabelObj) :
    ∀ (cells : List (ℕ × ℕ)),
      (∀ cell ∈ cells, decodeCell t W H cell.1 cell.2 = some (g cell)) →
      ∀ acc, List.foldlM (fun acc2 cell =>
          (decodeCell t W H cell.1 cell.2).map (fun r =>
            match r with
            | some obj => acc2 ++ [obj]
            | none => acc2)) acc cells = some (acc ++ cells.filterMap g) := by
  intro cells
  induction cells with
  | nil =>
    intro _ acc
    rw [List.filterMap_nil, List.append_nil]
    rfl
  | cons cell rest ih =>
    intro hg acc
    rcases hgc : g cell with _ | obj
    · rw [List.foldlM_cons, hg cell (by simp), hgc,
        List.filterMap_cons_none hgc]
      exact ih (fun c hc => hg c (by simp [hc])) acc
    · rw [List.foldlM_cons, hg cell (by simp), hgc,
        List.filterMap_cons_some hgc]
      exact (ih (fun c hc => hg c (by simp [hc])) (acc ++ [obj])).trans
        (congrArg some (by simp))

theorem perm_filterMap_find {α κ : Type} [BEq κ] [LawfulBEq κ] (key : α → κ)
    (cells : List κ) (hnd : cells.Nodup) :
    ∀ (objs : List α), (∀ o ∈ objs, key o ∈ cells) →
      objs.Pairwise (fun a b => key a ≠ key b) →
      (cells.filterMap (fun c => objs.find? (fun o => key o == c))).Perm objs := by
  intro objs
  induction objs with
  | nil =>
    intro _ _
    have he : ∀ (l : List κ),
        l.filterMap (fun c => ([] : List α).find? (fun o => key o == c)) = [] := by
      intro l
      induction l with
      | nil => rfl
      | cons a r ihl => rw [List.filterMap_cons_none rfl]; exact ihl
    rw [he cells]
  | cons obj rest ih =>
    intro hmem hdist
    obtain ⟨L1, L2, hsplit⟩ := List.append_of_mem (hmem obj (by simp))
    have hnd2 : (L1 ++ key obj :: L2).Nodup := hsplit ▸ hnd
    obtain ⟨hL1, hK, hdisj⟩ := List.nodup_append.mp hnd2
    have hkeyrest : ∀ o ∈ rest, key o ≠ key obj := by
      intro o ho hco
      exact ((List.pairwise_cons.mp hdist).1 o ho) hco.symm
    have hstep : ∀ c ∈ L1 ++ L2,
        (obj :: rest).find? (fun o => key o == c) =
          rest.find? (fun o => key o == c) := by
      intro c hc
      have hcne : key obj ≠ c := by
        intro hco
        subst hco
        rcases List.mem_append.mp hc with hc1 | hc2
        · exact (List.disjoint_left.mp hdisj hc1) (by simp)
        · exact (List.nodup_cons.mp hK).1 hc2
      rw [List.find?_cons_of_neg _ (by simpa using hcne)]
    have hAt : (obj :: rest).find? (fun o => key o == key obj) = some obj := by
      rw [List.find?_cons_of_pos _ (by simp)]
    have hAtRest : rest.find? (fun o => key o == key obj) = none := by
      rw [List.find?_eq_none]
      intro o ho
      simpa using hkeyrest o ho
    rw [hsplit, List.filterMap_append]
    have hhead : (key obj :: L2).filterMap
        (fun c => (obj :: rest).find? (fun o => key o == c)) =
        obj :: L2.filterMap (fun c => (obj :: rest).find? (fun o => key o == c)) := by
      rw [List.filterMap_cons]
      simp only [hAt]
    rw [hhead]
    have hL1e : L1.filterMap (fun c => (obj :: rest).find? (fun o => key o == c)) =
        L1.filterMap (fun c => rest.find? (fun o => key o == c)) :=
      filterMap_congr_aux L1 _ _ (fun c hc => hstep c (by simp [hc]))
    have hL2e : L2.filterMap (fun c => (obj :: rest).find? (fun o => key o == c)) =
        L2.filterMap (fun c => rest.find? (fun o => key o == c)) :=
      filterMap_congr_aux L2 _ _ (fun c hc => hstep c (by simp [hc]))
    rw [hL1e, hL2e]
    have hperm1 : (L1.filterMap (fun c => rest.find? (fun o => key o == c)) ++
        obj :: L2.filterMap (fun c => rest.find? (fun o => key o == c))).Perm
        (obj :: (L1.filterMap (fun c => rest.find? (fun o => key o == c)) ++
          L2.filterMap (fun c => rest.find? (fun o => key o == c)))) :=
      List.perm_middle
    refine hperm1.trans (List.Perm.cons obj ?_)
    have hcells : cells.filterMap (fun c => rest.find? (fun o => key o == c)) =
        L1.filterMap (fun c => rest.find? (fun o => key o == c)) ++
        L2.filterMap (fun c => rest.find? (fun o => key o == c)) := by
      rw [hsplit, List.filterMap_append]
      have hh2 : (key obj :: L2).filterMap
          (fun c => rest.find? (fun o => key o == c)) =
          L2.filterMap (fun c => rest.find? (fun o => key o == c)) := by
        rw [List.filterMap_cons]
        simp only [hAtRest]
      rw [hh2]
    rw [← hcells]
    exact ih (fun o ho => hmem o (by simp [ho])) (List.Pairwise.of_cons hdist)

theorem decodeCell_char (W H : ℚ) (s : ℕ) (t : Tensor3) (objs : List LabelObj)
    (ht0 : t.dim0 = s) (ht1 : t.dim1 = s) (ht2 : t.dim2 = 2 * 5 + 20)
    (hchar : ∀ cy cx ch, t.data cy cx ch = cellSpec W H (s : ℚ) s s objs cy cx ch)
    (hobjs : ∀ o ∈ objs, ∃ ci0, classIndex o.name = some ci0)
    (hcells : ∀ o ∈ objs, objCell W H (s : ℚ) s s o =
        some ((bndbox_to_coords o.bndbox W H (s : ℚ)).cell_y.toNat,
          (bndbox_to_coords o.bndbox W H (s : ℚ)).cell_x.toNat) ∧
      0 ≤ (bndbox_to_coords o.bndbox W H (s : ℚ)).cell_y ∧
      0 ≤ (bndbox_to_coords o.bndbox W H (s : ℚ)).cell_x)
    (cy cx : ℕ) (hcy : cy < s) (hcx : cx < s) :
    decodeCell t W H cy cx =
      some ((firstObjAt W H (s : ℚ) s s objs cy cx).map (approxObj W H (s : ℚ))) := by
  unfold decodeCell
  rw [ht0, ht1, ht2]
  rw [if_pos (⟨hcy, hcx, by norm_num⟩ : cy < s ∧ cx < s ∧ 0 < 2 * 5 + 20)]
  rcases hf : firstObjAt W H (s : ℚ) s s objs cy cx with _ | o
  · rw [hchar cy cx 0, cellSpec_eq_of_none W H (s : ℚ) s s objs cy cx hf 0]
    rw [if_neg (by norm_num : ¬(0:ℚ) = 1)]
    rfl
  · obtain ⟨ci, hcio⟩ := hobjs o (List.mem_of_find?_eq_some hf)
    obtain ⟨hci20, hidx⟩ := classIndex_spec hcio
    have hpred := List.find?_some hf
    have hoc : objCell W H (s : ℚ) s s o = some (cy, cx) := by simpa using hpred
    obtain ⟨hoc2, hy0, hx0⟩ := hcells o (List.mem_of_find?_eq_some hf)
    rw [hoc] at hoc2
    obtain ⟨e1, e2⟩ := Prod.mk.injEq .. ▸ Option.some.inj hoc2
    have hcyz : ((cy : ℕ) : ℤ) = (bndbox_to_coords o.bndbox W H (s : ℚ)).cell_y := by
      rw [e1]
      exact Int.toNat_of_nonneg hy0
    have hcxz : ((cx : ℕ) : ℤ) = (bndbox_to_coords o.bndbox W H (s : ℚ)).cell_x := by
      rw [e2]
      exact Int.toNat_of_nonneg hx0
    rw [hchar cy cx 0, cellSpec_eq_of_found W H (s : ℚ) s s objs cy cx o ci hf hcio 0]
    have hv0 : cellVec W H (s : ℚ) o ci 0 = 1 := by
      unfold cellVec
      norm_num
    rw [hv0, if_pos rfl, if_pos (by norm_num : 5 ≤ 2 * 5 + 20)]
    have hv1 : cellVec W H (s : ℚ) o ci 1 = (bndbox_to_coords o.bndbox W H (s : ℚ)).x := by
      unfold cellVec
      norm_num
    have hv2 : cellVec W H (s : ℚ) o ci 2 = (bndbox_to_coords o.bndbox W H (s : ℚ)).y := by
      unfold cellVec
      norm_num
    have hv3 : cellVec W H (s : ℚ) o ci 3 = (bndbox_to_coords o.bndbox W H (s : ℚ)).w := by
      unfold cellVec
      norm_num
    have hv4 : cellVec W H (s : ℚ) o ci 4 = (bndbox_to_coords o.bndbox W H (s : ℚ)).h := by
      unfold cellVec
      norm_num
    rw [hchar cy cx 1, cellSpec_eq_of_found W H (s : ℚ) s s objs cy cx o ci hf hcio 1, hv1]
    rw [hchar cy cx 2, cellSpec_eq_of_found W H (s : ℚ) s s objs cy cx o ci hf hcio 2, hv2]
    rw [hchar cy cx 3, cellSpec_eq_of_found W H (s : ℚ) s s objs cy cx o ci hf hcio 3, hv3]
    rw [hchar cy cx 4, cellSpec_eq_of_found W H (s : ℚ) s s objs cy cx o ci hf hcio 4, hv4]
    have hargm : npArgmax ((List.range (2 * 5 + 20 - 10)).map
        (fun k => t.data cy cx (10 + k))) = some ci := by
      have h20 : 2 * 5 + 20 - 10 = 20 := by norm_num
      rw [h20]
      apply npArgmax_onehot 20 ci hci20
      intro k hk
      rw [hchar cy cx (10 + k),
        cellSpec_eq_of_found W H (s : ℚ) s s objs cy cx o ci hf hcio (10 + k)]
      unfold cellVec
      by_cases hkci : k = ci
      · rw [if_neg (by omega), if_neg (by omega), if_neg (by omega),
          if_neg (by omega), if_neg (by omega), if_pos (by omega), if_pos hkci]
      · rw [if_neg (by omega), if_neg (by omega), if_neg (by omega),
          if_neg (by omega), if_neg (by omega), if_neg (by omega), if_neg hkci]
    rw [hargm]
    simp only [hidx]
    rw [hcyz, hcxz]
    rfl

theorem objCell_interior (W H : ℚ) (s : ℕ) (o : LabelObj)
    (hs : 0 < s) (hW : 0 < W) (hH : 0 < H)
    (hx0 : 0 ≤ o.bndbox.1) (hx1 : o.bndbox.1 ≤ o.bndbox.2.1)
    (hy0 : 0 ≤ o.bndbox.2.2.1) (hy1 : o.bndbox.2.2.1 ≤ o.bndbox.2.2.2)
    (hcx : (o.bndbox.1 + o.bndbox.2.1) / 2 < W)
    (hcy : (o.bndbox.2.2.1 + o.bndbox.2.2.2) / 2 < H) :
    objCell W H (s : ℚ) s s o =
      some ((bndbox_to_coords o.bndbox W H (s : ℚ)).cell_y.toNat,
        (bndbox_to_coords o.bndbox W H (s : ℚ)).cell_x.toNat) ∧
    (bndbox_to_coords o.bndbox W H (s : ℚ)).cell_y.toNat < s ∧
    (bndbox_to_coords o.bndbox W H (s : ℚ)).cell_x.toNat < s ∧
    0 ≤ (bndbox_to_coords o.bndbox W H (s : ℚ)).cell_y ∧
    0 ≤ (bndbox_to_coords o.bndbox W H (s : ℚ)).cell_x := by
  obtain ⟨-, -, hpx, hfx0, hfx1, -, -⟩ :=
    grid_axis_bounds o.bndbox.1 o.bndbox.2.1 W s hx0 hx1 hW hcx hs
  obtain ⟨-, -, hpy, hfy0, hfy1, -, -⟩ :=
    grid_axis_bounds o.bndbox.2.2.1 o.bndbox.2.2.2 H s hy0 hy1 hH hcy hs
  have hgx : (bndbox_to_coords o.bndbox W H (s : ℚ)).cell_x =
      pyInt ((o.bndbox.1 + o.bndbox.2.1) / 2 / W * (s : ℚ)) := rfl
  have hgy : (bndbox_to_coords o.bndbox W H (s : ℚ)).cell_y =
      pyInt ((o.bndbox.2.2.1 + o.bndbox.2.2.2) / 2 / H * (s : ℚ)) := rfl
  have hcx0 : 0 ≤ (bndbox_to_coords o.bndbox W H (s : ℚ)).cell_x := by
    rw [hgx, hpx]; exact hfx0
  have hcx1 : (bndbox_to_coords o.bndbox W H (s : ℚ)).cell_x < (s : ℤ) := by
    rw [hgx, hpx]; exact hfx1
  have hcy0 : 0 ≤ (bndbox_to_coords o.bndbox W H (s : ℚ)).cell_y := by
    rw [hgy, hpy]; exact hfy0
  have hcy1 : (bndbox_to_coords o.bndbox W H (s : ℚ)).cell_y < (s : ℤ) := by
    rw [hgy, hpy]; exact hfy1
  have hnx : npIdx (bndbox_to_coords o.bndbox W H (s : ℚ)).cell_x s =
      some (bndbox_to_coords o.bndbox W H (s : ℚ)).cell_x.toNat := by
    unfold npIdx
    rw [if_pos hcx0, if_pos hcx1]
  have hny : npIdx (bndbox_to_coords o.bndbox W H (s : ℚ)).cell_y s =
      some (bndbox_to_coords o.bndbox W H (s : ℚ)).cell_y.toNat := by
    unfold npIdx
    rw [if_pos hcy0, if_pos hcy1]
  refine ⟨?_, by omega, by omega, hcy0, hcx0⟩
  show ((npIdx (bndbox_to_coords o.bndbox W H (s : ℚ)).cell_y s).bind
    (fun cy2 => Option.map (fun cx2 => (cy2, cx2))
      (npIdx (bndbox_to_coords o.bndbox W H (s : ℚ)).cell_x s))) = _
  rw [hny]
  simp only [Option.some_bind]
  rw [hnx]
  rfl

/-- C2 (amended). Encode-then-decode round trip with matching image size and
grid: for any annotation whose objects have known class names, whose boxes
lie within the (positive-dimension) image with centers strictly inside it,
and whose centers fall in pairwise distinct grid cells, encoding succeeds
and decoding the tensor yields an annotation with the same image-size
record and, as a multiset, exactly the original objects with each box
coordinate replaced by its round-tripped value, which is within ±1 pixel of
the original. The amendment (forced by the counterexample) requires box
centers strictly inside the image; a center on the right or bottom border
makes the encoder raise an IndexError. -/
theorem claim_C2 (label : PyLabel) (s : ℕ) (hs : 0 < s)
    (hW : 0 < label.imageSize.width) (hH : 0 < label.imageSize.height)
    (hknown : ∀ o ∈ label.objects, ∃ ci, classIndex o.name = some ci)
    (hbox : ∀ o ∈ label.objects,
      0 ≤ o.bndbox.1 ∧ o.bndbox.1 ≤ o.bndbox.2.1 ∧
      o.bndbox.2.1 ≤ (label.imageSize.width : ℚ) ∧
      0 ≤ o.bndbox.2.2.1 ∧ o.bndbox.2.2.1 ≤ o.bndbox.2.2.2 ∧
      o.bndbox.2.2.2 ≤ (label.imageSize.height : ℚ))
    (hcenter : ∀ o ∈ label.objects,
      (o.bndbox.1 + o.bndbox.2.1) / 2 < (label.imageSize.width : ℚ) ∧
      (o.bndbox.2.2.1 + o.bndbox.2.2.2) / 2 < (label.imageSize.height : ℚ))
    (hdist : label.objects.Pairwise (fun o1 o2 =>
      objCell (label.imageSize.width : ℚ) (label.imageSize.height : ℚ) (s : ℚ)
        s s o1 ≠
      objCell (label.imageSize.width : ℚ) (label.imageSize.height : ℚ) (s : ℚ)
        s s o2)) :
    ∃ t out, preprocess_label label s 2 20 = some t ∧
      tensor_to_label t label.imageSize.width label.imageSize.height
        label.imageSize.depth = some out ∧
      out.imageSize = label.imageSize ∧
      out.objects.Perm (label.objects.map (approxObj (label.imageSize.width : ℚ)
        (label.imageSize.height : ℚ) (s : ℚ))) ∧
      ∀ o ∈ label.objects,
        |((roundtripBox o.bndbox (label.imageSize.width : ℚ)
            (label.imageSize.height : ℚ) (s : ℚ)).1 : ℚ) - o.bndbox.1| ≤ 1 ∧
        |((roundtripBox o.bndbox (label.imageSize.width : ℚ)
            (label.imageSize.height : ℚ) (s : ℚ)).2.1 : ℚ) - o.bndbox.2.1| ≤ 1 ∧
        |((roundtripBox o.bndbox (label.imageSize.width : ℚ)
            (label.imageSize.height : ℚ) (s : ℚ)).2.2.1 : ℚ) - o.bndbox.2.2.1| ≤ 1 ∧
        |((roundtripBox o.bndbox (label.imageSize.width : ℚ)
            (label.imageSize.height : ℚ) (s : ℚ)).2.2.2 : ℚ) - o.bndbox.2.2.2| ≤ 1 := by
  rcases label with ⟨⟨D, Wz, Hz⟩, objs⟩
  dsimp only at hknown hbox hcenter hdist hW hH ⊢
  have hWq : (0 : ℚ) < (Wz : ℚ) := by exact_mod_cast hW
  have hHq : (0 : ℚ) < (Hz : ℚ) := by exact_mod_cast hH
  have hOC : ∀ o ∈ objs, objCell (Wz : ℚ) (Hz : ℚ) (s : ℚ) s s o =
      some ((bndbox_to_coords o.bndbox (Wz : ℚ) (Hz : ℚ) (s : ℚ)).cell_y.toNat,
        (bndbox_to_coords o.bndbox (Wz : ℚ) (Hz : ℚ) (s : ℚ)).cell_x.toNat) ∧
      (bndbox_to_coords o.bndbox (Wz : ℚ) (Hz : ℚ) (s : ℚ)).cell_y.toNat < s ∧
      (bndbox_to_coords o.bndbox (Wz : ℚ) (Hz : ℚ) (s : ℚ)).cell_x.toNat < s ∧
      0 ≤ (bndbox_to_coords o.bndbox (Wz : ℚ) (Hz : ℚ) (s : ℚ)).cell_y ∧
      0 ≤ (bndbox_to_coords o.bndbox (Wz : ℚ) (Hz : ℚ) (s : ℚ)).cell_x := by
    intro o ho
    obtain ⟨hx0, hx1, hx2, hy0q, hy1q, hy2q⟩ := hbox o ho
    obtain ⟨hc1, hc2⟩ := hcenter o ho
    exact objCell_interior (Wz : ℚ) (Hz : ℚ) s o hs hWq hHq hx0 hx1 hy0q hy1q hc1 hc2
  have hobjT : ∀ o ∈ objs, ∃ ci, classIndex o.name = some ci ∧ 10 + ci < 2 * 5 + 20 := by
    intro o ho
    obtain ⟨ci, hci⟩ := hknown o ho
    have := (classIndex_spec hci).1
    exact ⟨ci, hci, by omega⟩
  have hcellT : ∀ o ∈ objs, ∃ cell, objCell (Wz : ℚ) (Hz : ℚ) (s : ℚ) s s o = some cell := by
    intro o ho
    exact ⟨_, (hOC o ho).1⟩
  obtain ⟨t, ht⟩ := preprocess_label_total ⟨⟨D, Wz, Hz⟩, objs⟩ s 2 20 (by norm_num)
    hobjT hcellT
  obtain ⟨ht0, ht1, ht2, hobjs2, hchar0⟩ := preprocess_label_char ht
  have hchar : ∀ cy cx ch, t.data cy cx ch =
      cellSpec (Wz : ℚ) (Hz : ℚ) (s : ℚ) s s objs cy cx ch := hchar0
  have hobjs3 : ∀ o ∈ objs, ∃ ci0, classIndex o.name = some ci0 := hobjs2
  have hOC3 : ∀ o ∈ objs, objCell (Wz : ℚ) (Hz : ℚ) (s : ℚ) s s o =
      some ((bndbox_to_coords o.bndbox (Wz : ℚ) (Hz : ℚ) (s : ℚ)).cell_y.toNat,
        (bndbox_to_coords o.bndbox (Wz : ℚ) (Hz : ℚ) (s : ℚ)).cell_x.toNat) ∧
      0 ≤ (bndbox_to_coords o.bndbox (Wz : ℚ) (Hz : ℚ) (s : ℚ)).cell_y ∧
      0 ≤ (bndbox_to_coords o.bndbox (Wz : ℚ) (Hz : ℚ) (s : ℚ)).cell_x := by
    intro o ho
    obtain ⟨h1, -, -, h4, h5⟩ := hOC o ho
    exact ⟨h1, h4, h5⟩
  have hdec : ∀ cell ∈ gridCells t.dim0,
      decodeCell t (Wz : ℚ) (Hz : ℚ) cell.1 cell.2 =
        some ((firstObjAt (Wz : ℚ) (Hz : ℚ) (s : ℚ) s s objs cell.1 cell.2).map
          (approxObj (Wz : ℚ) (Hz : ℚ) (s : ℚ))) := by
    rintro ⟨a, b⟩ hcellmem
    rw [ht0] at hcellmem
    obtain ⟨c1, c2⟩ := mem_gridCells.mp hcellmem
    exact decodeCell_char (Wz : ℚ) (Hz : ℚ) s t objs ht0 ht1 ht2 hchar hobjs3
      hOC3 a b c1 c2
  have hfold := foldlM_decode_eq t (Wz : ℚ) (Hz : ℚ)
    (fun cell => (firstObjAt (Wz : ℚ) (Hz : ℚ) (s : ℚ) s s objs cell.1 cell.2).map
      (approxObj (Wz : ℚ) (Hz : ℚ) (s : ℚ)))
    (gridCells t.dim0) hdec []
  have hdecode : tensor_to_label t Wz Hz D = some ⟨⟨D, Wz, Hz⟩,
      (gridCells t.dim0).filterMap
        (fun cell => (firstObjAt (Wz : ℚ) (Hz : ℚ) (s : ℚ) s s objs cell.1 cell.2).map
          (approxObj (Wz : ℚ) (Hz : ℚ) (s : ℚ)))⟩ := by
    unfold tensor_to_label
    rw [hfold]
    rfl
  refine ⟨t, _, ht, hdecode, rfl, ?_, ?_⟩
  · -- permutation with the approximated objects
    dsimp only
    rw [ht0]
    have hmf : (gridCells s).filterMap
        (fun cell => (firstObjAt (Wz : ℚ) (Hz : ℚ) (s : ℚ) s s objs cell.1 cell.2).map
          (approxObj (Wz : ℚ) (Hz : ℚ) (s : ℚ))) =
        ((gridCells s).filterMap
          (fun cell => firstObjAt (Wz : ℚ) (Hz : ℚ) (s : ℚ) s s objs cell.1 cell.2)).map
          (approxObj (Wz : ℚ) (Hz : ℚ) (s : ℚ)) := by
      rw [List.map_filterMap]
    rw [hmf]
    have hkey : ∀ o ∈ objs,
        objCell (Wz : ℚ) (Hz : ℚ) (s : ℚ) s s o =
          some ((objCell (Wz : ℚ) (Hz : ℚ) (s : ℚ) s s o).getD (0, 0)) := by
      intro o ho
      rw [(hOC3 o ho).1]
      rfl
    have hfm2 : (gridCells s).filterMap
        (fun cell => firstObjAt (Wz : ℚ) (Hz : ℚ) (s : ℚ) s s objs cell.1 cell.2) =
        (gridCells s).filterMap (fun cell => objs.find?
          (fun o => (objCell (Wz : ℚ) (Hz : ℚ) (s : ℚ) s s o).getD (0, 0) == cell)) := by
      apply filterMap_congr_aux
      intro cell _
      unfold firstObjAt
      apply find?_congr_aux
      intro o ho
      rw [hkey o ho]
      by_cases hoc : (objCell (Wz : ℚ) (Hz : ℚ) (s : ℚ) s s o).getD (0, 0) = cell
      · simp [hoc]
      · simp [hoc]
    rw [hfm2]
    apply List.Perm.map
    apply perm_filterMap_find _ (gridCells s) (gridCells_nodup s) objs
    · intro o ho
      have h1 := (hOC o ho).1
      have : (objCell (Wz : ℚ) (Hz : ℚ) (s : ℚ) s s o).getD (0, 0) =
          ((bndbox_to_coords o.bndbox (Wz : ℚ) (Hz : ℚ) (s : ℚ)).cell_y.toNat,
            (bndbox_to_coords o.bndbox (Wz : ℚ) (Hz : ℚ) (s : ℚ)).cell_x.toNat) := by
        rw [h1]
        rfl
      rw [this]
      exact mem_gridCells.mpr ⟨(hOC o ho).2.1, (hOC o ho).2.2.1⟩
    · apply List.Pairwise.imp_of_mem ?_ hdist
      intro o1 o2 h1 h2 hne hcon
      apply hne
      rw [hkey o1 h1, hkey o2 h2, hcon]
  · -- per-coordinate closeness of the round trip
    intro o ho
    have hsne : ((s : ℕ) : ℚ) ≠ 0 := by
      exact_mod_cast Nat.pos_iff_ne_zero.mp hs
    have heq : roundtripBox o.bndbox (Wz : ℚ) (Hz : ℚ) (s : ℚ) =
        (pyRound o.bndbox.1, pyRound o.bndbox.2.1, pyRound o.bndbox.2.2.1,
          pyRound o.bndbox.2.2.2) :=
      roundtrip_box_eq o.bndbox.1 o.bndbox.2.1 o.bndbox.2.2.1 o.bndbox.2.2.2
        (Wz : ℚ) (Hz : ℚ) (s : ℚ) (ne_of_gt hWq) (ne_of_gt hHq) hsne
    rw [heq]
    have half_le_one : (1 : ℚ) / 2 ≤ 1 := by norm_num
    exact ⟨le_trans (pyRound_sub_le o.bndbox.1) half_le_one,
      le_trans (pyRound_sub_le o.bndbox.2.1) half_le_one,
      le_trans (pyRound_sub_le o.bndbox.2.2.1) half_le_one,
      le_trans (pyRound_sub_le o.bndbox.2.2.2) half_le_one⟩

/-- C2 counterexample. The object box `(400, 400, 0, 100)` lies within the
400×400 image (the claim's hypotheses hold: known class, box within the
image, one object so cells trivially distinct), yet its center x is exactly
on the right border, the grid-unit center is 7 and `cell_x = 7` is out of
range for the 7×7 tensor: the encoder raises `IndexError` and no tensor is
produced, so decode cannot reproduce the annotation. -/
theorem claim_C2_counterexample :
    preprocess_label ⟨⟨3, 400, 400⟩, [⟨"person".data, (400, 400, 0, 100)⟩]⟩
      7 2 20 = none := by
  have hci : classIndex "person".data = some 14 := by decide
  have hny : npIdx (bndbox_to_coords (400, 400, 0, 100) ((400:ℤ) : ℚ)
      ((400:ℤ) : ℚ) ((7:ℕ) : ℚ)).cell_y 7 = some 0 := by
    norm_num [bndbox_to_coords, pyInt, npIdx]
  have hnx : npIdx (bndbox_to_coords (400, 400, 0, 100) ((400:ℤ) : ℚ)
      ((400:ℤ) : ℚ) ((7:ℕ) : ℚ)).cell_x 7 = none := by
    norm_num [bndbox_to_coords, pyInt, npIdx]
  have henc : encodeObj ((400:ℤ) : ℚ) ((400:ℤ) : ℚ) ((7:ℕ) : ℚ)
      (zeros3 7 7 (2 * 5 + 20)) ⟨"person".data, (400, 400, 0, 100)⟩ = none := by
    unfold encodeObj
    rw [hci]
    simp only [Option.some_bind]
    show ((npIdx (bndbox_to_coords (400, 400, 0, 100) ((400:ℤ) : ℚ)
      ((400:ℤ) : ℚ) ((7:ℕ) : ℚ)).cell_y 7).bind _) = none
    rw [hny]
    simp only [Option.some_bind]
    show ((npIdx (bndbox_to_coords (400, 400, 0, 100) ((400:ℤ) : ℚ)
      ((400:ℤ) : ℚ) ((7:ℕ) : ℚ)).cell_x 7).bind _) = none
    rw [hnx]
    rfl
  unfold preprocess_label
  rw [List.foldlM_cons]
  show (encodeObj ((400:ℤ) : ℚ) ((400:ℤ) : ℚ) ((7:ℕ) : ℚ)
      (zeros3 7 7 (2 * 5 + 20)) ⟨"person".data, (400, 400, 0, 100)⟩ >>= _) = none
  rw [henc]
  rfl

/-- Witness for C2 at a concrete one-object annotation. -/
theorem claim_C2_witness :
    ∃ t out, preprocess_label
        ⟨⟨3, 400, 400⟩, [⟨"person".data, (100, 200, 50, 150)⟩]⟩ 7 2 20 = some t ∧
      tensor_to_label t 400 400 3 = some out ∧
      out.imageSize = ⟨3, 400, 400⟩ ∧
      out.objects.Perm ([(⟨"person".data, (100, 200, 50, 150)⟩ : LabelObj)].map
        (approxObj ((400:ℤ) : ℚ) ((400:ℤ) : ℚ) ((7:ℕ) : ℚ))) ∧
      ∀ o ∈ [(⟨"person".data, (100, 200, 50, 150)⟩ : LabelObj)],
        |((roundtripBox o.bndbox ((400:ℤ) : ℚ) ((400:ℤ) : ℚ)
            ((7:ℕ) : ℚ)).1 : ℚ) - o.bndbox.1| ≤ 1 ∧
        |((roundtripBox o.bndbox ((400:ℤ) : ℚ) ((400:ℤ) : ℚ)
            ((7:ℕ) : ℚ)).2.1 : ℚ) - o.bndbox.2.1| ≤ 1 ∧
        |((roundtripBox o.bndbox ((400:ℤ) : ℚ) ((400:ℤ) : ℚ)
            ((7:ℕ) : ℚ)).2.2.1 : ℚ) - o.bndbox.2.2.1| ≤ 1 ∧
        |((roundtripBox o.bndbox ((400:ℤ) : ℚ) ((400:ℤ) : ℚ)
            ((7:ℕ) : ℚ)).2.2.2 : ℚ) - o.bndbox.2.2.2| ≤ 1 :=
  claim_C2 ⟨⟨3, 400, 400⟩, [⟨"person".data, (100, 200, 50, 150)⟩]⟩ 7
    (by norm_num)
    (by decide)
    (by decide)
    (by intro o ho
        simp only [List.mem_singleton] at ho
        subst ho
        exact ⟨14, by decide⟩)
    (by intro o ho
        simp only [List.mem_singleton] at ho
        subst ho
        norm_num)
    (by intro o ho
        simp only [List.mem_singleton] at ho
        subst ho
        norm_num)
    (by simp)
